import Mathlib

/-!
Shallow embedding of the mpc small-vector container
(src/src/small_vector.hpp, current revision, and src/src/smallVector.hpp,
the older revision) together with proofs about the behaviours its
specification describes.

Modelling conventions.

The C++ object has three members: a union of a heap pointer m_data and an
inline byte buffer m_buff sized for N elements, plus the counters m_alloc
and m_size.  The container is inline exactly when m_alloc == 0; begin()
reads m_data when m_alloc != 0 and the buffer otherwise.  We model the
state as:

* region  : where the constructed elements actually live - either the
  inline buffer (Region.buf es) or an owned heap allocation of a given
  slot count (Region.heap allocSize es).  The element list holds the
  constructed elements at slots 0..len-1 of that region, in order.
* m_alloc, m_size : the two counter fields, verbatim.

Keeping region separate from m_alloc lets the model express the states in
which the two disagree (the code can reach them: the copy operations
assign m_alloc := other.m_alloc after placing the elements elsewhere).
Reading or writing through begin() when m_alloc disagrees with the region
actually holding the elements dereferences an indeterminate pointer; any
such access is modelled as undefined behaviour (Res.ub / Option.none), as
is writing past the end of the active region.

Failure injection.  A copy construction of an element (and the
move-if-noexcept constructions used during relocation, which fall back to
copies for types without a noexcept move) can throw; so can the raw
allocation.  Both are modelled by an oracle Orc carrying an optional
count of constructions (resp. allocations) that still succeed before one
fails; Option.none means the corresponding operation never fails.  Plain
move assignments and move constructions used by erase, insert shifting,
swap and the move operations are modelled as total, matching the
container's contract that moves are failure-free.

Two library routines keep their contracts: std uninitialized_copy
destroys what it built and rethrows on failure, and std move_backward
requires a valid source range first ≤ last - calling it on an inverted
range such as [end, end-1) is undefined behaviour, modelled as
Option.none / Res.ub (the empty range first = last is a valid no-op).
Likewise element assignment is only defined on a live object: assigning
through a slot at or past the constructed prefix - which insert does on
an empty container, and which insert at the top position reaches via
the inverted move_backward range - is undefined behaviour, not a raw
store.
-/

namespace SmallVec

/-- The region of memory currently holding the constructed elements. -/
inductive Region (T : Type) where
  | buf (es : List T)
  | heap (allocSize : Nat) (es : List T)
deriving DecidableEq, Repr

/-- The container state: the region holding the elements plus the two
counter members m_alloc and m_size, exactly as in the C++ class. -/
structure SVec (T : Type) where
  region : Region T
  m_alloc : Nat
  m_size : Nat
deriving DecidableEq, Repr

/-- The exceptions the container can let escape. -/
inductive Err where
  | outOfRange
  | badAlloc
  | elemFail
deriving DecidableEq, Repr

/-- Failure-injection oracle: how many further element constructions
(resp. allocations) succeed before one throws; none = never fails. -/
structure Orc where
  elemGas : Option Nat
  allocGas : Option Nat
deriving DecidableEq, Repr

/-- Outcome of an operation: normal return with a value, an escaped
exception (the object outlives the throw, so the post-throw state is
carried), or undefined behaviour. -/
inductive Res (T : Type) (α : Type) where
  | ok (a : α) (s : SVec T) (o : Orc)
  | thrown (e : Err) (s : SVec T) (o : Orc)
  | ub
deriving DecidableEq, Repr

/-- Attempt one raw allocation against the oracle. -/
def useAlloc (o : Orc) : Bool × Orc :=
  match o.allocGas with
  | none => (true, o)
  | some 0 => (false, { o with allocGas := none })
  | some (g+1) => (true, { o with allocGas := some g })

/-- Attempt k element constructions in order against the oracle.
Returns how many succeeded, whether all did, and the remaining oracle. -/
def constructRun (k : Nat) (o : Orc) : Nat × Bool × Orc :=
  match o.elemGas with
  | none => (k, true, o)
  | some g =>
    if k ≤ g then (k, true, { o with elemGas := some (g - k) })
    else (g, false, { o with elemGas := none })

variable {T : Type}

/-- The element list seen through begin(): m_data when m_alloc is
non-zero, the inline buffer otherwise.  none when the pointer read this
way does not address the region that holds the elements. -/
def beginElems (s : SVec T) : Option (List T) :=
  if s.m_alloc = 0 then
    match s.region with
    | Region.buf es => some es
    | Region.heap _ _ => none
  else
    match s.region with
    | Region.heap _ es => some es
    | Region.buf _ => none

/-- Number of slots of the region begin() addresses (N inline, the
allocation size on the heap); none when begin() is indeterminate. -/
def regionSlots (N : Nat) (s : SVec T) : Option Nat :=
  if s.m_alloc = 0 then
    match s.region with
    | Region.buf _ => some N
    | Region.heap _ _ => none
  else
    match s.region with
    | Region.heap a _ => some a
    | Region.buf _ => none

/-- Replace the constructed elements of the region that currently holds
them (used right after a successful beginElems). -/
def writeBack (s : SVec T) (es : List T) : SVec T :=
  match s.region with
  | Region.buf _ => { s with region := Region.buf es }
  | Region.heap a _ => { s with region := Region.heap a es }

/-- Read the k elements at begin()[0..k): defined when k = 0 (no access
happens) or when begin() is valid and slots 0..k-1 are constructed. -/
def readElems (s : SVec T) (k : Nat) : Option (List T) :=
  if k = 0 then some []
  else
    match beginElems s with
    | none => none
    | some es => if k ≤ es.length then some (es.take k) else none

/-- Element assignment into slot i of the region whose constructed
prefix is es.  Assignment requires a live object at the target, so only
a constructed slot (i < es.length) is defined; assigning into raw
storage is undefined behaviour (none). -/
def writeSlot (es : List T) (i : Nat) (v : T) : Option (List T) :=
  if i < es.length then some (es.set i v)
  else none

/-- std move_backward over slots: moves slots [first, lst) to the range
ending at dlast.  The source range must be valid (first ≤ lst); an
inverted range such as the [end, end-1) that insert produces at the
top position is undefined behaviour (none).  The empty range
first = lst is a valid no-op. -/
def move_backward_slots (l : List T) (first lst dlast : Nat) : Option (List T) :=
  if lst < first then none
  else if lst = first then some l
  else some ((l.take (dlast - (lst - first))) ++ ((l.drop first).take (lst - first)) ++ l.drop dlast)

/-- The allocation size of the owned heap region, if one is owned. -/
def allocSizeOf (s : SVec T) : Option Nat :=
  match s.region with
  | Region.heap a _ => some a
  | Region.buf _ => none

/-- Well-formed state: the counters agree with the region that holds the
elements - inline iff m_alloc = 0, m_size counts the constructed
elements, they fit, and a heap allocation is larger than N. -/
def wf (N : Nat) (s : SVec T) : Bool :=
  match s.region with
  | Region.buf es => s.m_alloc == 0 && s.m_size == es.length && es.length ≤ N
  | Region.heap a es => s.m_alloc == a && s.m_size == es.length && es.length ≤ a && N < a

/-- The default-constructed container: empty, inline. -/
def empty (T : Type) : SVec T := ⟨Region.buf [], 0, 0⟩

/-- The oracle that never injects a failure. -/
def orcNone : Orc := ⟨none, none⟩

/-!  Operations of the current revision, src/src/small_vector.hpp.
Each definition transcribes the member function of the same name; line
references are to that file.  -/

namespace sv

/-- Lines 42: static constexpr size_t LARGE_SIZE_THRESHOLD = 1024. -/
def LARGE_SIZE_THRESHOLD : Nat := 1024

/-- Lines 350: capacity() returns m_alloc when non-zero, else N. -/
def capacity (N : Nat) (s : SVec T) : Nat :=
  if s.m_alloc = 0 then N else s.m_alloc

/-- Lines 317-322: clear() destroys *(end()-1) m_size times.  With
m_size = 0 nothing is accessed; otherwise begin() must be valid and the
m_size destroyed slots must be exactly the constructed ones. -/
def clear (s : SVec T) : Option (SVec T) :=
  if s.m_size = 0 then some s
  else
    match beginElems s with
    | none => none
    | some es =>
      if s.m_size = es.length then some { writeBack s [] with m_size := 0 }
      else none

/-- Lines 452-459: nearly_destroy() = clear, release the heap region if
m_alloc is non-zero (deleting m_data, indeterminate in a mismatched
state), zero both counters. -/
def nearly_destroy (s : SVec T) : Option (SVec T) :=
  match clear s with
  | none => none
  | some s1 =>
    if s1.m_alloc = 0 then some { s1 with m_alloc := 0, m_size := 0 }
    else
      match s1.region with
      | Region.heap _ _ => some ⟨Region.buf [], 0, 0⟩
      | Region.buf _ => none

/-- Lines 273-293: reserve(inp).  Early return when m_alloc > inp or
N ≥ inp; allocate inp slots; move-if-noexcept the m_size elements into
them (each construction may throw: roll the new region back and rethrow,
old state untouched); then nearly_destroy the old state and adopt the
new region with m_alloc = inp, m_size restored. -/
def reserve (N inp : Nat) (s : SVec T) (o : Orc) : Res T Unit :=
  if s.m_alloc > inp ∨ N ≥ inp then Res.ok () s o
  else
    match useAlloc o with
    | (false, o1) => Res.thrown Err.badAlloc s o1
    | (true, o1) =>
      match readElems s s.m_size with
      | none => Res.ub
      | some moved =>
        if s.m_size ≤ inp then
          match constructRun s.m_size o1 with
          | (_, false, o2) => Res.thrown Err.elemFail s o2
          | (_, true, o2) =>
            match nearly_destroy s with
            | none => Res.ub
            | some _ => Res.ok () ⟨Region.heap inp moved, inp, s.m_size⟩ o2
        else Res.ub

/-- Lines 434-444: ensure_capacity(req_sz): no-op when satisfied, else
reserve max(grown, req_sz) with growth 2x at or below the large-size
threshold and 1.5x above it. -/
def ensure_capacity (N req_sz : Nat) (s : SVec T) (o : Orc) : Res T Unit :=
  if req_sz ≤ capacity N s then Res.ok () s o
  else
    reserve N
      (max (if capacity N s > LARGE_SIZE_THRESHOLD
            then capacity N s + capacity N s / 2
            else capacity N s * 2)
        req_sz) s o

/-- Placement-construction at end(): begin() must be valid, slot m_size
must be the first unconstructed one and lie inside the region. -/
def placeEnd (N : Nat) (s : SVec T) (v : T) : Option (SVec T) :=
  match beginElems s, regionSlots N s with
  | some es, some slots =>
    if s.m_size = es.length ∧ s.m_size < slots then
      some { writeBack s (es ++ [v]) with m_size := s.m_size + 1 }
    else none
  | _, _ => none

/-- Lines 190-198: push_back(const T&): ensure_capacity(m_size+1), then
copy-construct at end() (the copy may throw) and increment m_size. -/
def push_back (N : Nat) (inp : T) (s : SVec T) (o : Orc) : Res T Unit :=
  match ensure_capacity N (s.m_size + 1) s o with
  | Res.ub => Res.ub
  | Res.thrown e s1 o1 => Res.thrown e s1 o1
  | Res.ok _ s1 o1 =>
    match constructRun 1 o1 with
    | (_, false, o2) => Res.thrown Err.elemFail s1 o2
    | (_, true, o2) =>
      match placeEnd N s1 inp with
      | none => Res.ub
      | some s2 => Res.ok () s2 o2

/-- Lines 212-221: emplace_back constructs at end() directly from the
arguments; modelled with the already-built value, same shape as
push_back. -/
def emplace_back (N : Nat) (inp : T) (s : SVec T) (o : Orc) : Res T Unit :=
  push_back N inp s o

/-- Lines 223-228: pop_back(): when m_size > 0 destroy the last element
and decrement m_size, else do nothing. -/
def pop_back (s : SVec T) : Option (SVec T) :=
  if s.m_size = 0 then some s
  else
    match beginElems s with
    | none => none
    | some es =>
      if s.m_size = es.length then
        some { writeBack s es.dropLast with m_size := s.m_size - 1 }
      else none

/-- Lines 408-432: insert_impl(pos, value), with offset = pos - cbegin().
Out-of-range offsets throw with no change; otherwise ensure one extra
slot, and when m_size > 0 move-construct the last element into the new
top slot and move_backward the range [insert_pos, end()-1) - an inverted
range, hence UB, when insert_pos = end(); finally assign value at the
insertion slot (UB when that slot holds no live object, as on an empty
container) and increment m_size, returning the slot index. -/
def insert_impl (N : Nat) (offset : Int) (value : T) (s : SVec T) (o : Orc) : Res T Nat :=
  if offset < 0 ∨ offset > (s.m_size : Int) then Res.thrown Err.outOfRange s o
  else
    match ensure_capacity N (s.m_size + 1) s o with
    | Res.ub => Res.ub
    | Res.thrown e s1 o1 => Res.thrown e s1 o1
    | Res.ok _ s1 o1 =>
      match beginElems s1, regionSlots N s1 with
      | some es, some slots =>
        if s1.m_size = 0 then
          match writeSlot es offset.toNat value with
          | none => Res.ub
          | some es3 => Res.ok offset.toNat { writeBack s1 es3 with m_size := s1.m_size + 1 } o1
        else
          match es.getLast? with
          | none => Res.ub
          | some lastElem =>
            if s1.m_size = es.length ∧ s1.m_size < slots then
              match move_backward_slots (es ++ [lastElem]) offset.toNat (s1.m_size - 1)
                  s1.m_size with
              | none => Res.ub
              | some es2 =>
                match writeSlot es2 offset.toNat value with
                | none => Res.ub
                | some es3 =>
                  Res.ok offset.toNat { writeBack s1 es3 with m_size := s1.m_size + 1 } o1
            else Res.ub
      | _, _ => Res.ub

/-- Lines 243-269: erase(first, last) with offsets measured from
cbegin().  Invalid ranges throw with no change; an empty range is a
no-op returning first; otherwise the elements after last are moved down
to first, the trailing slots destroyed, m_size decremented by the range
length, and first returned. -/
def erase (first_off last_off : Int) (s : SVec T) (o : Orc) : Res T Nat :=
  if first_off < 0 ∨ last_off > (s.m_size : Int) ∨ first_off > last_off then
    Res.thrown Err.outOfRange s o
  else if first_off = last_off then Res.ok first_off.toNat s o
  else
    match beginElems s with
    | none => Res.ub
    | some es =>
      if s.m_size = es.length then
        Res.ok first_off.toNat
          { writeBack s (es.take first_off.toNat ++ es.drop last_off.toNat) with
            m_size := s.m_size - (last_off.toNat - first_off.toNat) } o
      else Res.ub

/-- Lines 296-314: resize(size, val).  Equal size: no-op.  Shrinking
destroys the trailing elements.  Growing reserves, then copy-constructs
the missing fills one at a time with no rollback: a failing fill throws
with the fills built so far still in place. -/
def resize (N size : Nat) (val : T) (s : SVec T) (o : Orc) : Res T Unit :=
  if size = s.m_size then Res.ok () s o
  else if size < s.m_size then
    match beginElems s with
    | none => Res.ub
    | some es =>
      if s.m_size = es.length then
        Res.ok () { writeBack s (es.take size) with m_size := size } o
      else Res.ub
  else
    match reserve N size s o with
    | Res.ub => Res.ub
    | Res.thrown e s1 o1 => Res.thrown e s1 o1
    | Res.ok _ s1 o1 =>
      match beginElems s1, regionSlots N s1 with
      | some es, some slots =>
        if s1.m_size = es.length ∧ size ≤ slots then
          match constructRun (size - s1.m_size) o1 with
          | (k, true, o2) =>
            Res.ok () { writeBack s1 (es ++ List.replicate k val) with m_size := s1.m_size + k } o2
          | (k, false, o2) =>
            Res.thrown Err.elemFail
              { writeBack s1 (es ++ List.replicate k val) with m_size := s1.m_size + k } o2
        else Res.ub
      | _, _ => Res.ub

/-- Lines 172-185: at(ind): throw out_of_range when ind ≥ m_size, else
read begin()[ind]. -/
def at_elem (ind : Nat) (s : SVec T) (o : Orc) : Res T T :=
  if s.m_size ≤ ind then Res.thrown Err.outOfRange s o
  else
    match beginElems s with
    | none => Res.ub
    | some es =>
      match es.get? ind with
      | none => Res.ub
      | some v => Res.ok v s o

/-- Lines 164-169: unchecked operator[]: read begin()[ind]. -/
def get_elem (ind : Nat) (s : SVec T) : Option T :=
  match beginElems s with
  | none => none
  | some es => es.get? ind

/-- Lines 73-83: the copy constructor: default-construct, reserve the
source count (on throw, nearly_destroy and rethrow), uninitialized_copy
the source elements (partial constructions are unwound by the library
routine before the rethrow), then set m_size and - verbatim from the
source - m_alloc := other.m_alloc. -/
def copy_ctor (N : Nat) (other : SVec T) (o : Orc) : Res T Unit :=
  match reserve N other.m_size (empty T) o with
  | Res.ub => Res.ub
  | Res.thrown e _ o1 => Res.thrown e (empty T) o1
  | Res.ok _ d1 o1 =>
    match readElems other other.m_size with
    | none => Res.ub
    | some src =>
      match regionSlots N d1 with
      | none => Res.ub
      | some slots =>
        if other.m_size ≤ slots then
          match constructRun other.m_size o1 with
          | (_, false, o2) => Res.thrown Err.elemFail d1 o2
          | (_, true, o2) =>
            Res.ok () { writeBack d1 src with m_size := other.m_size, m_alloc := other.m_alloc } o2
        else Res.ub

/-- Lines 126-139: copy assignment for distinct objects (the identity
check makes self-assignment a no-op): nearly_destroy the destination,
then the same sequence as the copy constructor, including the final
m_alloc := other.m_alloc. -/
def copy_assign (N : Nat) (dest other : SVec T) (o : Orc) : Res T Unit :=
  match nearly_destroy dest with
  | none => Res.ub
  | some d0 =>
    match reserve N other.m_size d0 o with
    | Res.ub => Res.ub
    | Res.thrown e s1 o1 =>
      match nearly_destroy s1 with
      | none => Res.ub
      | some d2 => Res.thrown e d2 o1
    | Res.ok _ d1 o1 =>
      match readElems other other.m_size with
      | none => Res.ub
      | some src =>
        match regionSlots N d1 with
        | none => Res.ub
        | some slots =>
          if other.m_size ≤ slots then
            match constructRun other.m_size o1 with
            | (_, false, o2) => Res.thrown Err.elemFail d1 o2
            | (_, true, o2) =>
              Res.ok () { writeBack d1 src with m_size := other.m_size, m_alloc := other.m_alloc } o2
          else Res.ub

/-- Lines 86-101: move constructor (noexcept).  Inline source: move each
element into the own buffer and clear the source.  Heap source: steal
m_data, m_alloc, m_size and reset the source to empty inline. -/
def move_ctor (N : Nat) (other : SVec T) : Option (SVec T × SVec T) :=
  if other.m_alloc = 0 then
    match readElems other other.m_size with
    | none => none
    | some es =>
      if other.m_size ≤ N then
        match clear other with
        | none => none
        | some other1 => some (⟨Region.buf es, 0, other.m_size⟩, other1)
      else none
  else
    match other.region with
    | Region.heap a es => some (⟨Region.heap a es, other.m_alloc, other.m_size⟩, ⟨Region.buf [], 0, 0⟩)
    | Region.buf _ => none

/-- Lines 142-161: move assignment for distinct objects (noexcept):
nearly_destroy the destination, then the same two cases as the move
constructor. -/
def move_assign (N : Nat) (dest other : SVec T) : Option (SVec T × SVec T) :=
  match nearly_destroy dest with
  | none => none
  | some _ =>
    if other.m_alloc = 0 then
      match readElems other other.m_size with
      | none => none
      | some es =>
        if other.m_size ≤ N then
          match clear other with
          | none => none
          | some other1 => some (⟨Region.buf es, 0, other.m_size⟩, other1)
        else none
    else
      match other.region with
      | Region.heap a es => some (⟨Region.heap a es, other.m_alloc, other.m_size⟩, ⟨Region.buf [], 0, 0⟩)
      | Region.buf _ => none

/-- Lines 365-399: swap (noexcept), three cases: both heap - swap the
pointer and both counters; both inline - element-wise exchange, whose
net effect swaps the two element sequences and sizes; mixed - three-way
move through a temporary. -/
def swap (N : Nat) (a b : SVec T) : Option (SVec T × SVec T) :=
  if a.m_alloc ≠ 0 ∧ b.m_alloc ≠ 0 then
    match a.region, b.region with
    | Region.heap x ea, Region.heap y eb =>
      some (⟨Region.heap y eb, b.m_alloc, b.m_size⟩, ⟨Region.heap x ea, a.m_alloc, a.m_size⟩)
    | _, _ => none
  else if a.m_alloc = 0 ∧ b.m_alloc = 0 then
    match readElems a a.m_size, readElems b b.m_size with
    | some ea, some eb =>
      if a.m_size ≤ N ∧ b.m_size ≤ N then
        some (⟨Region.buf eb, 0, b.m_size⟩, ⟨Region.buf ea, 0, a.m_size⟩)
      else none
    | _, _ => none
  else
    match move_ctor N a with
    | none => none
    | some (temp, a1) =>
      match move_assign N a1 b with
      | none => none
      | some (a2, b1) =>
        match move_assign N b1 temp with
        | none => none
        | some (b2, _) => some (a2, b2)

/-- Lines 104-115: initializer_list constructor: default-construct,
reserve the list length (nearly_destroy and rethrow on failure), then
copy-construct the elements one at a time with no rollback. -/
def init_list (N : Nat) (l : List T) (o : Orc) : Res T Unit :=
  match reserve N l.length (empty T) o with
  | Res.ub => Res.ub
  | Res.thrown e _ o1 => Res.thrown e (empty T) o1
  | Res.ok _ d1 o1 =>
    match regionSlots N d1 with
    | none => Res.ub
    | some slots =>
      if l.length ≤ slots then
        match constructRun l.length o1 with
        | (k, true, o2) => Res.ok () { writeBack d1 (l.take k) with m_size := k } o2
        | (k, false, o2) => Res.thrown Err.elemFail { writeBack d1 (l.take k) with m_size := k } o2
      else Res.ub

/-- Lines 70: the size constructor delegates to resize(sz) with a
default-constructed fill value, passed here explicitly. -/
def ctor_size (N : Nat) (dflt : T) (sz : Nat) (o : Orc) : Res T Unit :=
  resize N sz dflt (empty T) o

end sv

/-!  Operations of the older revision, src/src/smallVector.hpp.  That
class stores m_data and the inline buffer as two separate members plus a
cached pointer m_buffptr to the buffer, and tests "inline" by comparing
begin() against m_buffptr; since an owned heap allocation is a distinct
object from the embedded buffer, that comparison holds exactly when
m_alloc == 0, which is how it is transcribed here.  The member functions
below transcribe smallVector.hpp line by line; the two revisions differ
in member layout and naming but not in the algorithm of any operation of
the shared interface.  -/

namespace svOld

/-- Lines 17: static constexpr size_t LARGE_SIZE_THRESHOLD = 1024. -/
def LARGE_SIZE_THRESHOLD : Nat := 1024

/-- Lines 274-279: capacity(). -/
def capacity (N : Nat) (s : SVec T) : Nat :=
  if s.m_alloc = 0 then N else s.m_alloc

/-- Lines 243-248: clear(). -/
def clear (s : SVec T) : Option (SVec T) :=
  if s.m_size = 0 then some s
  else
    match beginElems s with
    | none => none
    | some es =>
      if s.m_size = es.length then some { writeBack s [] with m_size := 0 }
      else none

/-- Lines 352-357: nearlyDestroy(). -/
def nearlyDestroy (s : SVec T) : Option (SVec T) :=
  match clear s with
  | none => none
  | some s1 =>
    if s1.m_alloc = 0 then some { s1 with m_alloc := 0, m_size := 0 }
    else
      match s1.region with
      | Region.heap _ _ => some ⟨Region.buf [], 0, 0⟩
      | Region.buf _ => none

/-- Lines 199-219: reserve(inp), same algorithm as the current
revision. -/
def reserve (N inp : Nat) (s : SVec T) (o : Orc) : Res T Unit :=
  if s.m_alloc > inp ∨ N ≥ inp then Res.ok () s o
  else
    match useAlloc o with
    | (false, o1) => Res.thrown Err.badAlloc s o1
    | (true, o1) =>
      match readElems s s.m_size with
      | none => Res.ub
      | some moved =>
        if s.m_size ≤ inp then
          match constructRun s.m_size o1 with
          | (_, false, o2) => Res.thrown Err.elemFail s o2
          | (_, true, o2) =>
            match nearlyDestroy s with
            | none => Res.ub
            | some _ => Res.ok () ⟨Region.heap inp moved, inp, s.m_size⟩ o2
        else Res.ub

/-- Lines 334-344: ensureCapacity(req_sz). -/
def ensureCapacity (N req_sz : Nat) (s : SVec T) (o : Orc) : Res T Unit :=
  if req_sz ≤ capacity N s then Res.ok () s o
  else
    reserve N
      (max (if capacity N s > LARGE_SIZE_THRESHOLD
            then capacity N s + capacity N s / 2
            else capacity N s * 2)
        req_sz) s o

/-- Placement-construction at end() for the older revision. -/
def placeEnd (N : Nat) (s : SVec T) (v : T) : Option (SVec T) :=
  match beginElems s, regionSlots N s with
  | some es, some slots =>
    if s.m_size = es.length ∧ s.m_size < slots then
      some { writeBack s (es ++ [v]) with m_size := s.m_size + 1 }
    else none
  | _, _ => none

/-- Lines 164-172: push_back(const T&). -/
def push_back (N : Nat) (inp : T) (s : SVec T) (o : Orc) : Res T Unit :=
  match ensureCapacity N (s.m_size + 1) s o with
  | Res.ub => Res.ub
  | Res.thrown e s1 o1 => Res.thrown e s1 o1
  | Res.ok _ s1 o1 =>
    match constructRun 1 o1 with
    | (_, false, o2) => Res.thrown Err.elemFail s1 o2
    | (_, true, o2) =>
      match placeEnd N s1 inp with
      | none => Res.ub
      | some s2 => Res.ok () s2 o2

/-- Lines 186-195: emplace_back, modelled like push_back. -/
def emplace_back (N : Nat) (inp : T) (s : SVec T) (o : Orc) : Res T Unit :=
  push_back N inp s o

/-- Lines 222-240: resize(size, val), same algorithm as the current
revision, including the unguarded fill loop. -/
def resize (N size : Nat) (val : T) (s : SVec T) (o : Orc) : Res T Unit :=
  if size = s.m_size then Res.ok () s o
  else if size < s.m_size then
    match beginElems s with
    | none => Res.ub
    | some es =>
      if s.m_size = es.length then
        Res.ok () { writeBack s (es.take size) with m_size := size } o
      else Res.ub
  else
    match reserve N size s o with
    | Res.ub => Res.ub
    | Res.thrown e s1 o1 => Res.thrown e s1 o1
    | Res.ok _ s1 o1 =>
      match beginElems s1, regionSlots N s1 with
      | some es, some slots =>
        if s1.m_size = es.length ∧ size ≤ slots then
          match constructRun (size - s1.m_size) o1 with
          | (k, true, o2) =>
            Res.ok () { writeBack s1 (es ++ List.replicate k val) with m_size := s1.m_size + k } o2
          | (k, false, o2) =>
            Res.thrown Err.elemFail
              { writeBack s1 (es ++ List.replicate k val) with m_size := s1.m_size + k } o2
        else Res.ub
      | _, _ => Res.ub

/-- Lines 146-159: at(ind). -/
def at_elem (ind : Nat) (s : SVec T) (o : Orc) : Res T T :=
  if s.m_size ≤ ind then Res.thrown Err.outOfRange s o
  else
    match beginElems s with
    | none => Res.ub
    | some es =>
      match es.get? ind with
      | none => Res.ub
      | some v => Res.ok v s o

/-- Lines 140-143: unchecked operator[]. -/
def get_elem (ind : Nat) (s : SVec T) : Option T :=
  match beginElems s with
  | none => none
  | some es => es.get? ind

/-- Lines 49-59: the copy constructor, ending - as in the current
revision - with m_alloc := other.m_alloc. -/
def copy_ctor (N : Nat) (other : SVec T) (o : Orc) : Res T Unit :=
  match reserve N other.m_size (empty T) o with
  | Res.ub => Res.ub
  | Res.thrown e _ o1 => Res.thrown e (empty T) o1
  | Res.ok _ d1 o1 =>
    match readElems other other.m_size with
    | none => Res.ub
    | some src =>
      match regionSlots N d1 with
      | none => Res.ub
      | some slots =>
        if other.m_size ≤ slots then
          match constructRun other.m_size o1 with
          | (_, false, o2) => Res.thrown Err.elemFail d1 o2
          | (_, true, o2) =>
            Res.ok () { writeBack d1 src with m_size := other.m_size, m_alloc := other.m_alloc } o2
        else Res.ub

/-- Lines 102-115: copy assignment for distinct objects. -/
def copy_assign (N : Nat) (dest other : SVec T) (o : Orc) : Res T Unit :=
  match nearlyDestroy dest with
  | none => Res.ub
  | some d0 =>
    match reserve N other.m_size d0 o with
    | Res.ub => Res.ub
    | Res.thrown e s1 o1 =>
      match nearlyDestroy s1 with
      | none => Res.ub
      | some d2 => Res.thrown e d2 o1
    | Res.ok _ d1 o1 =>
      match readElems other other.m_size with
      | none => Res.ub
      | some src =>
        match regionSlots N d1 with
        | none => Res.ub
        | some slots =>
          if other.m_size ≤ slots then
            match constructRun other.m_size o1 with
            | (_, false, o2) => Res.thrown Err.elemFail d1 o2
            | (_, true, o2) =>
              Res.ok () { writeBack d1 src with m_size := other.m_size, m_alloc := other.m_alloc } o2
            else Res.ub

/-- Lines 62-77: move constructor; the inline test other.begin() ==
other.m_buffptr is transcribed as m_alloc = 0. -/
def move_ctor (N : Nat) (other : SVec T) : Option (SVec T × SVec T) :=
  if other.m_alloc = 0 then
    match readElems other other.m_size with
    | none => none
    | some es =>
      if other.m_size ≤ N then
        match clear other with
        | none => none
        | some other1 => some (⟨Region.buf es, 0, other.m_size⟩, other1)
      else none
  else
    match other.region with
    | Region.heap a es => some (⟨Region.heap a es, other.m_alloc, other.m_size⟩, ⟨Region.buf [], 0, 0⟩)
    | Region.buf _ => none

/-- Lines 118-137: move assignment for distinct objects. -/
def move_assign (N : Nat) (dest other : SVec T) : Option (SVec T × SVec T) :=
  match nearlyDestroy dest with
  | none => none
  | some _ =>
    if other.m_alloc = 0 then
      match readElems other other.m_size with
      | none => none
      | some es =>
        if other.m_size ≤ N then
          match clear other with
          | none => none
          | some other1 => some (⟨Region.buf es, 0, other.m_size⟩, other1)
        else none
    else
      match other.region with
      | Region.heap a es => some (⟨Region.heap a es, other.m_alloc, other.m_size⟩, ⟨Region.buf [], 0, 0⟩)
      | Region.buf _ => none

/-- Lines 287-325: swap, same three cases as the current revision, with
the stack tests begin() == m_buffptr transcribed as m_alloc = 0. -/
def swap (N : Nat) (a b : SVec T) : Option (SVec T × SVec T) :=
  if a.m_alloc ≠ 0 ∧ b.m_alloc ≠ 0 then
    match a.region, b.region with
    | Region.heap x ea, Region.heap y eb =>
      some (⟨Region.heap y eb, b.m_alloc, b.m_size⟩, ⟨Region.heap x ea, a.m_alloc, a.m_size⟩)
    | _, _ => none
  else if a.m_alloc = 0 ∧ b.m_alloc = 0 then
    match readElems a a.m_size, readElems b b.m_size with
    | some ea, some eb =>
      if a.m_size ≤ N ∧ b.m_size ≤ N then
        some (⟨Region.buf eb, 0, b.m_size⟩, ⟨Region.buf ea, 0, a.m_size⟩)
      else none
    | _, _ => none
  else
    match move_ctor N a with
    | none => none
    | some (temp, a1) =>
      match move_assign N a1 b with
      | none => none
      | some (a2, b1) =>
        match move_assign N b1 temp with
        | none => none
        | some (b2, _) => some (a2, b2)

/-- Lines 80-91: initializer_list constructor. -/
def init_list (N : Nat) (l : List T) (o : Orc) : Res T Unit :=
  match reserve N l.length (empty T) o with
  | Res.ub => Res.ub
  | Res.thrown e _ o1 => Res.thrown e (empty T) o1
  | Res.ok _ d1 o1 =>
    match regionSlots N d1 with
    | none => Res.ub
    | some slots =>
      if l.length ≤ slots then
        match constructRun l.length o1 with
        | (k, true, o2) => Res.ok () { writeBack d1 (l.take k) with m_size := k } o2
        | (k, false, o2) => Res.thrown Err.elemFail { writeBack d1 (l.take k) with m_size := k } o2
      else Res.ub

/-- Lines 46: the size constructor delegates to resize(sz). -/
def ctor_size (N : Nat) (dflt : T) (sz : Nat) (o : Orc) : Res T Unit :=
  resize N sz dflt (empty T) o

end svOld

/-!  A common-interface command language, used to compare the two
revisions on arbitrary operation sequences.  -/

/-- One operation of the interface shared by the two revisions, applied
to a tracked container; the binary operations carry the other operand's
state. -/
inductive COp (T : Type) where
  | push (v : T)
  | emplace (v : T)
  | reserveOp (n : Nat)
  | resizeOp (n : Nat) (v : T)
  | clearOp
  | copyAssignFrom (src : SVec T)
  | moveAssignFrom (src : SVec T)
  | swapWith (p : SVec T)
deriving DecidableEq, Repr

namespace sv

/-- One step of the current revision on the tracked container. -/
def runOp (N : Nat) (op : COp T) (s : SVec T) (o : Orc) : Res T Unit :=
  match op with
  | COp.push v => push_back N v s o
  | COp.emplace v => emplace_back N v s o
  | COp.reserveOp n => reserve N n s o
  | COp.resizeOp n v => resize N n v s o
  | COp.clearOp =>
    match clear s with
    | none => Res.ub
    | some s1 => Res.ok () s1 o
  | COp.copyAssignFrom src => copy_assign N s src o
  | COp.moveAssignFrom src =>
    match move_assign N s src with
    | none => Res.ub
    | some (d, _) => Res.ok () d o
  | COp.swapWith p =>
    match swap N s p with
    | none => Res.ub
    | some (a, _) => Res.ok () a o

/-- Run a sequence of interface operations under the current revision;
an escaped exception or undefined behaviour stops the run. -/
def run (N : Nat) (ops : List (COp T)) (s : SVec T) (o : Orc) : Res T Unit :=
  match ops with
  | [] => Res.ok () s o
  | op :: rest =>
    match runOp N op s o with
    | Res.ok _ s1 o1 => run N rest s1 o1
    | r => r

end sv

namespace svOld

/-- One step of the older revision on the tracked container. -/
def runOp (N : Nat) (op : COp T) (s : SVec T) (o : Orc) : Res T Unit :=
  match op with
  | COp.push v => push_back N v s o
  | COp.emplace v => emplace_back N v s o
  | COp.reserveOp n => reserve N n s o
  | COp.resizeOp n v => resize N n v s o
  | COp.clearOp =>
    match clear s with
    | none => Res.ub
    | some s1 => Res.ok () s1 o
  | COp.copyAssignFrom src => copy_assign N s src o
  | COp.moveAssignFrom src =>
    match move_assign N s src with
    | none => Res.ub
    | some (d, _) => Res.ok () d o
  | COp.swapWith p =>
    match swap N s p with
    | none => Res.ub
    | some (a, _) => Res.ok () a o

/-- Run a sequence of interface operations under the older revision. -/
def run (N : Nat) (ops : List (COp T)) (s : SVec T) (o : Orc) : Res T Unit :=
  match ops with
  | [] => Res.ok () s o
  | op :: rest =>
    match runOp N op s o with
    | Res.ok _ s1 o1 => run N rest s1 o1
    | r => r

end svOld

/-!  Helper lemmas about the state model.  -/

theorem wf_iff {N : Nat} {s : SVec T} : wf N s = true ↔
    ((∃ es, s.region = Region.buf es ∧ s.m_alloc = 0 ∧ s.m_size = es.length ∧ es.length ≤ N)
   ∨ (∃ a es, s.region = Region.heap a es ∧ s.m_alloc = a ∧ s.m_size = es.length ∧
        es.length ≤ a ∧ N < a)) := by
  rcases s with ⟨reg, al, sz⟩
  cases reg with
  | buf es =>
    simp only [wf, Bool.and_eq_true, beq_iff_eq, decide_eq_true_eq]
    constructor
    · rintro ⟨⟨h1, h2⟩, h3⟩
      exact Or.inl ⟨es, rfl, h1, h2, h3⟩
    · rintro (⟨es1, heq, h1, h2, h3⟩ | ⟨a, es1, heq, _⟩)
      · cases heq; exact ⟨⟨h1, h2⟩, h3⟩
      · cases heq
  | heap a es =>
    simp only [wf, Bool.and_eq_true, beq_iff_eq, decide_eq_true_eq]
    constructor
    · rintro ⟨⟨⟨h1, h2⟩, h3⟩, h4⟩
      exact Or.inr ⟨a, es, rfl, h1, h2, h3, h4⟩
    · rintro (⟨es1, heq, _⟩ | ⟨a1, es1, heq, h1, h2, h3, h4⟩)
      · cases heq
      · cases heq; exact ⟨⟨⟨h1, h2⟩, h3⟩, h4⟩

theorem writeBack_m_alloc (s : SVec T) (x : List T) : (writeBack s x).m_alloc = s.m_alloc := by
  cases hr : s.region <;> simp [writeBack, hr]

theorem writeBack_m_size (s : SVec T) (x : List T) : (writeBack s x).m_size = s.m_size := by
  cases hr : s.region <;> simp [writeBack, hr]

theorem beginElems_writeBack {s : SVec T} {es : List T} (x : List T)
    (h : beginElems s = some es) : beginElems (writeBack s x) = some x := by
  rcases s with ⟨reg, al, sz⟩
  cases reg <;> by_cases hal : al = 0 <;> simp [beginElems, writeBack, hal] at h ⊢

theorem beginElems_mk_size {s : SVec T} (k : Nat) :
    beginElems { s with m_size := k } = beginElems s := by
  rcases s with ⟨reg, al, sz⟩
  cases reg <;> simp [beginElems]

theorem readElems_length {s : SVec T} {k : Nat} {es : List T}
    (h : readElems s k = some es) : es.length = k := by
  unfold readElems at h
  by_cases hk : k = 0
  · subst hk
    simp at h
    subst h
    rfl
  · rw [if_neg hk] at h
    rcases hb : beginElems s with _ | es0
    · rw [hb] at h
      simp at h
    · by_cases hle : k ≤ es0.length
      · simp only [hb, hle, if_true, Option.some.injEq] at h
        subst h
        simp [List.length_take]
        omega
      · simp [hb, hle] at h

theorem wf_beginElems {N : Nat} {s : SVec T} (h : wf N s = true) :
    ∃ es, beginElems s = some es ∧ es.length = s.m_size ∧ s.m_size ≤ sv.capacity N s := by
  rcases wf_iff.1 h with ⟨es, hreg, hal, hsz, hle⟩ | ⟨a, es, hreg, hal, hsz, hle, hN⟩
  · refine ⟨es, ?_, hsz.symm, ?_⟩
    · simp [beginElems, hreg, hal]
    · simp [sv.capacity, hal]; omega
  · have ha0 : a ≠ 0 := by omega
    refine ⟨es, ?_, hsz.symm, ?_⟩
    · simp [beginElems, hreg, hal, ha0]
    · simp [sv.capacity, hal, ha0]; omega

theorem wf_readElems {N : Nat} {s : SVec T} (h : wf N s = true) :
    ∃ es, beginElems s = some es ∧ readElems s s.m_size = some es ∧ es.length = s.m_size := by
  obtain ⟨es, hbe, hlen, _⟩ := wf_beginElems h
  refine ⟨es, hbe, ?_, hlen⟩
  by_cases hz : s.m_size = 0
  · have hnil : es = [] := List.length_eq_zero.1 (by omega)
    simp [readElems, hz, hnil]
  · simp [readElems, hz, hbe, ← hlen]

theorem regionSlots_of_wf {N : Nat} {s : SVec T} (h : wf N s = true) :
    regionSlots N s = some (sv.capacity N s) := by
  rcases wf_iff.1 h with ⟨es, hreg, hal, _, _⟩ | ⟨a, es, hreg, hal, _, _, hN⟩
  · simp [regionSlots, sv.capacity, hreg, hal]
  · have ha0 : a ≠ 0 := by omega
    simp [regionSlots, sv.capacity, hreg, hal, ha0]

theorem wf_capacity_ge {N : Nat} {s : SVec T} (h : wf N s = true) :
    N ≤ sv.capacity N s := by
  rcases wf_iff.1 h with ⟨es, _, hal, _, _⟩ | ⟨a, es, _, hal, _, _, hN⟩
  · simp [sv.capacity, hal]
  · have ha0 : a ≠ 0 := by omega
    simp [sv.capacity, hal, ha0]
    omega

theorem wf_m_alloc_le_capacity {N : Nat} {s : SVec T} (h : wf N s = true) :
    s.m_alloc ≤ sv.capacity N s := by
  rcases wf_iff.1 h with ⟨es, _, hal, _, _⟩ | ⟨a, es, _, hal, _, _, hN⟩
  · simp [sv.capacity, hal]
  · have ha0 : a ≠ 0 := by omega
    simp [sv.capacity, hal, ha0]

theorem wf_empty (N : Nat) : wf N (empty T) = true := by
  simp [wf, empty]

theorem wf_writeBack {N : Nat} {s : SVec T} (x : List T) (h : wf N s = true)
    (hlen : x.length ≤ sv.capacity N s) :
    wf N { writeBack s x with m_size := x.length } = true := by
  rcases wf_iff.1 h with ⟨es, hreg, hal, hsz, hle⟩ | ⟨a, es, hreg, hal, hsz, hle, hN⟩
  · rw [sv.capacity, if_pos hal] at hlen
    simp [wf, writeBack, hreg, hal, hlen]
  · have ha0 : a ≠ 0 := by omega
    rw [sv.capacity, if_neg (hal ▸ ha0)] at hlen
    rw [hal] at hlen
    simp [wf, writeBack, hreg, hal, hlen, hN]

theorem clear_of_wf {N : Nat} {s : SVec T} (h : wf N s = true) :
    sv.clear s = some { writeBack s ([] : List T) with m_size := 0 } ∧
    wf N { writeBack s ([] : List T) with m_size := 0 } = true := by
  constructor
  · obtain ⟨es, hbe, hlen, _⟩ := wf_beginElems h
    by_cases hz : s.m_size = 0
    · have hnil : es = [] := List.length_eq_zero.1 (by omega)
      subst hnil
      have hwb : { writeBack s ([] : List T) with m_size := 0 } = s := by
        rcases wf_iff.1 h with ⟨es1, hreg, hal, hsz, _⟩ | ⟨a, es1, hreg, hal, hsz, _, _⟩ <;>
        · have hnil1 : es1 = [] := by
            apply List.length_eq_zero.1
            omega
          subst hnil1
          rcases s with ⟨reg, al, sz⟩
          simp only at hreg
          subst hreg
          simp_all [writeBack]
      rw [hwb]
      simp [sv.clear, hz]
    · simp [sv.clear, hz, hbe, hlen.symm]
      intro hnil
      rw [hnil] at hlen
      exact absurd (by simpa using hlen.symm) hz
  · have := wf_writeBack ([] : List T) h (by simp)
    simpa using this

theorem nearly_destroy_of_wf {N : Nat} {s : SVec T} (h : wf N s = true) :
    sv.nearly_destroy s = some (empty T) := by
  obtain ⟨hclear, _⟩ := clear_of_wf h
  unfold sv.nearly_destroy
  rw [hclear]
  rcases wf_iff.1 h with ⟨es, hreg, hal, _, _⟩ | ⟨a, es, hreg, hal, _, _, hN⟩
  · rcases s with ⟨reg, al, sz⟩
    simp only at hreg hal
    subst hreg
    subst hal
    simp [writeBack, empty]
  · have ha0 : a ≠ 0 := by omega
    rcases s with ⟨reg, al, sz⟩
    simp only at hreg hal
    subst hreg
    subst hal
    simp [writeBack, empty, ha0]

theorem reserve_ok_none {N : Nat} (inp : Nat) {s : SVec T} (h : wf N s = true) :
    ∃ s', sv.reserve N inp s orcNone = Res.ok () s' orcNone ∧ wf N s' = true ∧
      beginElems s' = beginElems s ∧ s'.m_size = s.m_size ∧
      sv.capacity N s' = (if s.m_alloc > inp ∨ N ≥ inp then sv.capacity N s else inp) := by
  by_cases hearly : s.m_alloc > inp ∨ N ≥ inp
  · refine ⟨s, ?_, h, rfl, rfl, ?_⟩
    · unfold sv.reserve
      rw [if_pos hearly]
    · rw [if_pos hearly]
  · obtain ⟨es, hbe, hre, hlen⟩ := wf_readElems h
    have hNi : N < inp := by omega
    have hsz : s.m_size ≤ inp := by
      rcases wf_iff.1 h with ⟨es1, _, hal, hszz, hle⟩ | ⟨a, es1, _, hal, hszz, hle, hN⟩ <;> omega
    have hstep : sv.reserve N inp s orcNone =
        Res.ok () ⟨Region.heap inp es, inp, s.m_size⟩ orcNone := by
      unfold sv.reserve
      rw [if_neg hearly]
      simp [useAlloc, orcNone, hre, hsz, constructRun, nearly_destroy_of_wf h]
    have hinp0 : inp ≠ 0 := by omega
    refine ⟨_, hstep, ?_, ?_, rfl, ?_⟩
    · rw [wf_iff]
      exact Or.inr ⟨inp, es, rfl, rfl, hlen.symm, by omega, hNi⟩
    · simp only [beginElems, hinp0, if_neg]
      exact hbe.symm
    · rw [if_neg hearly]
      simp [sv.capacity, hinp0]

theorem ensure_ok_none {N : Nat} (req : Nat) {s : SVec T} (h : wf N s = true) :
    ∃ s', sv.ensure_capacity N req s orcNone = Res.ok () s' orcNone ∧ wf N s' = true ∧
      beginElems s' = beginElems s ∧ s'.m_size = s.m_size ∧
      sv.capacity N s ≤ sv.capacity N s' ∧ req ≤ sv.capacity N s' ∧
      (req ≤ sv.capacity N s → s' = s) ∧
      (sv.capacity N s < req →
        sv.capacity N s' =
          max (if 1024 < sv.capacity N s then sv.capacity N s + sv.capacity N s / 2
               else sv.capacity N s * 2) req) := by
  by_cases hle : req ≤ sv.capacity N s
  · refine ⟨s, ?_, h, rfl, rfl, le_refl _, hle, fun _ => rfl, fun hlt => absurd hle (by omega)⟩
    unfold sv.ensure_capacity
    rw [if_pos hle]
  · have hcap : sv.capacity N s < req := by omega
    set cap := sv.capacity N s with hc
    set new_cap := max (if 1024 < cap then cap + cap / 2 else cap * 2) req with hnc
    have hsugg : cap ≤ new_cap := by
      rw [hnc]
      split <;> omega
    have hreqnc : req ≤ new_cap := by rw [hnc]; omega
    have hne : ¬(s.m_alloc > new_cap ∨ N ≥ new_cap) := by
      have h1 := wf_m_alloc_le_capacity h
      have h2 := wf_capacity_ge h
      rw [← hc] at h1 h2
      omega
    obtain ⟨s', heq, hwf, hbe, hsz, hcap'⟩ := reserve_ok_none new_cap h
    rw [if_neg hne] at hcap'
    refine ⟨s', ?_, hwf, hbe, hsz, ?_, ?_, fun hcontra => absurd hcontra (by omega), fun _ => ?_⟩
    · unfold sv.ensure_capacity
      rw [if_neg hle]
      exact heq
    · omega
    · omega
    · rw [hcap', hnc]

theorem placeEnd_of_wf {N : Nat} {s : SVec T} {es : List T} (v : T) (h : wf N s = true)
    (hbe : beginElems s = some es) (hlt : s.m_size < sv.capacity N s) :
    sv.placeEnd N s v = some { writeBack s (es ++ [v]) with m_size := s.m_size + 1 } ∧
    wf N { writeBack s (es ++ [v]) with m_size := s.m_size + 1 } = true ∧
    beginElems { writeBack s (es ++ [v]) with m_size := s.m_size + 1 } = some (es ++ [v]) := by
  obtain ⟨es0, hbe0, hlen0, _⟩ := wf_beginElems h
  have hee : es0 = es := by rw [hbe0] at hbe; injection hbe
  rw [hee] at hbe0 hlen0
  have hslots := regionSlots_of_wf h
  refine ⟨?_, ?_, ?_⟩
  · simp only [sv.placeEnd, hbe0, hslots]
    rw [if_pos ⟨hlen0.symm, hlt⟩]
  · have := wf_writeBack (es ++ [v]) h (by simp; omega)
    have hl : (es ++ [v]).length = s.m_size + 1 := by simp; omega
    rw [hl] at this
    exact this
  · have := beginElems_writeBack (es ++ [v]) hbe0
    calc beginElems { writeBack s (es ++ [v]) with m_size := s.m_size + 1 }
        = beginElems (writeBack s (es ++ [v])) := beginElems_mk_size _
      _ = some (es ++ [v]) := this

/-- A reserve call that throws (allocation or element-construction
failure) carries out the unchanged pre-call state. -/
theorem reserve_thrown_eq {N inp : Nat} {s : SVec T} {o : Orc} {e : Err} {s' : SVec T}
    {o' : Orc} (h : sv.reserve N inp s o = Res.thrown e s' o') : s' = s := by
  unfold sv.reserve at h
  split at h
  · simp at h
  · rcases hu : useAlloc o with ⟨b, o1⟩
    cases b
    · simp only [hu] at h
      injection h with h1 h2 h3
      exact h2.symm
    · simp only [hu] at h
      rcases hr : readElems s s.m_size with _ | moved
      · simp only [hr] at h
        simp at h
      · simp only [hr] at h
        by_cases hsz : s.m_size ≤ inp
        · rw [if_pos hsz] at h
          rcases hc : constructRun s.m_size o1 with ⟨k, bc, o2⟩
          cases bc
          · simp only [hc] at h
            injection h with h1 h2 h3
            exact h2.symm
          · simp only [hc] at h
            rcases hn : sv.nearly_destroy s with _ | s1 <;> simp only [hn] at h <;> simp at h
        · rw [if_neg hsz] at h
          simp at h

/-!  Claim theorems.  -/

/-- C1: copy construction is not correct for every source.  A
heap-resident source whose element count fits the inline buffer (built
here with N = 2 by reserve(5) followed by one push_back) is copied into
the inline buffer because reserve(other.m_size) early-returns, yet the
final assignment m_alloc := other.m_alloc (small_vector.hpp line 82)
marks the copy heap-resident; its begin() then reads an indeterminate
pointer, so no element of the copy is readable at all (get_elem = none),
the well-formedness invariant is broken, and destroying the copy would
release a garbage pointer.  The claim's universally quantified element
equality fails at index 0. -/
theorem C1_copy_from_heap_small_source_corrupts_the_copy :
    sv.run 2 [COp.reserveOp 5, COp.push 7] (empty Nat) orcNone
      = Res.ok () ⟨Region.heap 5 [7], 5, 1⟩ orcNone ∧
    wf 2 (⟨Region.heap 5 [7], 5, 1⟩ : SVec Nat) = true ∧
    sv.copy_ctor 2 (⟨Region.heap 5 [7], 5, 1⟩ : SVec Nat) orcNone
      = Res.ok () ⟨Region.buf [7], 5, 1⟩ orcNone ∧
    sv.get_elem 0 (⟨Region.heap 5 [7], 5, 1⟩ : SVec Nat) = some 7 ∧
    sv.get_elem 0 (⟨Region.buf [7], 5, 1⟩ : SVec Nat) = none ∧
    wf 2 (⟨Region.buf [7], 5, 1⟩ : SVec Nat) = false := by
  refine ⟨rfl, rfl, rfl, rfl, rfl, rfl⟩

/-- C2: the heap-residency invariant is violated by copy construction.
With N = 2, a well-formed heap source of capacity 5 holding 3 elements
is copied: the copy reserves exactly 3 slots (its owned allocation has
size 3), but the final m_alloc := other.m_alloc sets its capacity field
to 5, so the copy is heap-resident with reported capacity 5 differing
from the size 3 of the allocation it owns - later growth up to the
reported capacity would write past the allocation. -/
theorem C2_heap_capacity_differs_from_allocation_after_copy :
    sv.run 2 [COp.reserveOp 5, COp.push 7, COp.push 8, COp.push 9] (empty Nat) orcNone
      = Res.ok () ⟨Region.heap 5 [7, 8, 9], 5, 3⟩ orcNone ∧
    wf 2 (⟨Region.heap 5 [7, 8, 9], 5, 3⟩ : SVec Nat) = true ∧
    sv.copy_ctor 2 (⟨Region.heap 5 [7, 8, 9], 5, 3⟩ : SVec Nat) orcNone
      = Res.ok () ⟨Region.heap 3 [7, 8, 9], 5, 3⟩ orcNone ∧
    allocSizeOf (⟨Region.heap 3 [7, 8, 9], 5, 3⟩ : SVec Nat) = some 3 ∧
    sv.capacity 2 (⟨Region.heap 3 [7, 8, 9], 5, 3⟩ : SVec Nat) = 5 ∧
    wf 2 (⟨Region.heap 3 [7, 8, 9], 5, 3⟩ : SVec Nat) = false := by
  refine ⟨rfl, rfl, rfl, rfl, rfl, rfl⟩

/-- C4: resize is not all-or-nothing.  With N = 4 and a well-formed
one-element container, growing to size 3 with fill value 5 while the
second fill construction throws (oracle: one construction succeeds, the
next fails) leaves the container with the first fill still appended -
size 2, elements [10, 5] - instead of restoring the pre-call state
[10]; the fill loop of resize (small_vector.hpp lines 309-312) has no
rollback, contradicting the claim and the "Strong exc. guarantee"
comment above the function. -/
theorem C4_resize_fill_failure_keeps_partial_fills :
    sv.run 4 [COp.push 10] (empty Nat) orcNone
      = Res.ok () ⟨Region.buf [10], 0, 1⟩ orcNone ∧
    wf 4 (⟨Region.buf [10], 0, 1⟩ : SVec Nat) = true ∧
    sv.resize 4 3 5 (⟨Region.buf [10], 0, 1⟩ : SVec Nat) ⟨some 1, none⟩
      = Res.thrown Err.elemFail ⟨Region.buf [10, 5], 0, 2⟩ ⟨none, none⟩ ∧
    (⟨Region.buf [10, 5], 0, 2⟩ : SVec Nat) ≠ ⟨Region.buf [10], 0, 1⟩ := by
  refine ⟨rfl, rfl, rfl, by decide⟩

/-- C5: relocation delivers the strong guarantee.  Whenever reserve
reports a failure - the allocation failed, or a move/copy-construction
of some element into the new region failed partway (the already placed
elements are unwound and the region released inside the operation) -
the container state carried out by the escaped exception is exactly the
pre-call state, for every container, request and failure oracle. -/
theorem C5_reserve_failure_leaves_state_unchanged {T : Type} (N inp : Nat) (s : SVec T)
    (o : Orc) (e : Err) (s' : SVec T) (o' : Orc)
    (h : sv.reserve N inp s o = Res.thrown e s' o') : s' = s :=
  reserve_thrown_eq h

/-- C5 witness: a failed allocation (N = 2, request 5, allocation
oracle exhausted) and a failed element construction during relocation
(element oracle allowing one success) both leave the concrete pre-call
states unchanged. -/
theorem C5_witness :
    (⟨Region.buf [1], 0, 1⟩ : SVec Nat) = ⟨Region.buf [1], 0, 1⟩ ∧
    (⟨Region.buf [1, 2], 0, 2⟩ : SVec Nat) = ⟨Region.buf [1, 2], 0, 2⟩ :=
  ⟨C5_reserve_failure_leaves_state_unchanged 2 5 ⟨Region.buf [1], 0, 1⟩ ⟨none, some 0⟩
      Err.badAlloc ⟨Region.buf [1], 0, 1⟩ ⟨none, none⟩ rfl,
   C5_reserve_failure_leaves_state_unchanged 2 5 ⟨Region.buf [1, 2], 0, 2⟩ ⟨some 1, none⟩
      Err.elemFail ⟨Region.buf [1, 2], 0, 2⟩ ⟨none, none⟩ rfl⟩

/-- C8: the erase-range contract.  For a container whose begin() is
valid and whose m_size counts its constructed elements: an invalid
range (not begin ≤ first ≤ last ≤ end) throws out_of_range with no
change; an empty valid range is a no-op returning first; a non-empty
valid range removes the elements [first, last), shifting the survivors
down in order (result take first ++ drop last, so elements before first
are untouched), decrements m_size by the range length and returns
first - which denotes the first surviving shifted element, or end()
when none survive.  The concrete scenario erase [1,4) on [1,2,3,4,5,6]
gives [1,5,6] with the returned position denoting value 5. -/
theorem C8_erase_range_contract {T : Type} (s : SVec T) (es : List T)
    (first_off last_off : Int) (o : Orc)
    (hbe : beginElems s = some es) (hlen : s.m_size = es.length) :
    (¬(0 ≤ first_off ∧ first_off ≤ last_off ∧ last_off ≤ (s.m_size : Int)) →
      sv.erase first_off last_off s o = Res.thrown Err.outOfRange s o) ∧
    (0 ≤ first_off → first_off = last_off → last_off ≤ (s.m_size : Int) →
      sv.erase first_off last_off s o = Res.ok first_off.toNat s o) ∧
    (0 ≤ first_off → first_off < last_off → last_off ≤ (s.m_size : Int) →
      sv.erase first_off last_off s o =
        Res.ok first_off.toNat
          { writeBack s (es.take first_off.toNat ++ es.drop last_off.toNat) with
            m_size := s.m_size - (last_off.toNat - first_off.toNat) } o ∧
      beginElems { writeBack s (es.take first_off.toNat ++ es.drop last_off.toNat) with
            m_size := s.m_size - (last_off.toNat - first_off.toNat) }
        = some (es.take first_off.toNat ++ es.drop last_off.toNat)) ∧
    (sv.erase 1 4 (⟨Region.buf [1, 2, 3, 4, 5, 6], 0, 6⟩ : SVec Nat) orcNone
        = Res.ok 1 ⟨Region.buf [1, 5, 6], 0, 3⟩ orcNone ∧
      sv.get_elem 1 (⟨Region.buf [1, 5, 6], 0, 3⟩ : SVec Nat) = some 5) := by
  refine ⟨?_, ?_, ?_, rfl, rfl⟩
  · intro hinv
    unfold sv.erase
    rw [if_pos (by omega)]
  · intro h0 hfl hle
    unfold sv.erase
    rw [if_neg (by omega), if_pos hfl]
  · intro h0 hfl hle
    constructor
    · unfold sv.erase
      rw [if_neg (by omega), if_neg (by omega)]
      simp only [hbe]
      rw [if_pos hlen]
    · rw [beginElems_mk_size, beginElems_writeBack _ hbe]

/-- C8 witness: the general contract applied to the concrete container
[1,2,3,4,5,6]: the invalid range [2,1) throws, the empty range [2,2) is
a no-op, and the range [1,4) removes three elements. -/
theorem C8_witness :
    sv.erase 2 1 (⟨Region.buf [1, 2, 3, 4, 5, 6], 0, 6⟩ : SVec Nat) orcNone
      = Res.thrown Err.outOfRange ⟨Region.buf [1, 2, 3, 4, 5, 6], 0, 6⟩ orcNone ∧
    sv.erase 2 2 (⟨Region.buf [1, 2, 3, 4, 5, 6], 0, 6⟩ : SVec Nat) orcNone
      = Res.ok 2 ⟨Region.buf [1, 2, 3, 4, 5, 6], 0, 6⟩ orcNone ∧
    sv.erase 1 4 (⟨Region.buf [1, 2, 3, 4, 5, 6], 0, 6⟩ : SVec Nat) orcNone
      = Res.ok 1 { writeBack (⟨Region.buf [1, 2, 3, 4, 5, 6], 0, 6⟩ : SVec Nat)
          ([1, 2, 3, 4, 5, 6].take 1 ++ [1, 2, 3, 4, 5, 6].drop 4) with m_size := 6 - (4 - 1) }
          orcNone := by
  have h := C8_erase_range_contract (⟨Region.buf [1, 2, 3, 4, 5, 6], 0, 6⟩ : SVec Nat)
    [1, 2, 3, 4, 5, 6] 2 1 orcNone rfl rfl
  have h2 := C8_erase_range_contract (⟨Region.buf [1, 2, 3, 4, 5, 6], 0, 6⟩ : SVec Nat)
    [1, 2, 3, 4, 5, 6] 2 2 orcNone rfl rfl
  have h3 := C8_erase_range_contract (⟨Region.buf [1, 2, 3, 4, 5, 6], 0, 6⟩ : SVec Nat)
    [1, 2, 3, 4, 5, 6] 1 4 orcNone rfl rfl
  refine ⟨h.1 (by decide), h2.2.1 (by decide) (by decide) (by decide), ?_⟩
  have h4 := (h3.2.2.1 (by decide) (by decide) (by decide)).1
  exact h4

/-- Dropping off elements from a list with last element l leaves a list
that still ends in l: it is its own front part followed by [l]. -/
theorem drop_ends_with_getLast {es : List T} {l : T} (hgl : es.getLast? = some l) {off : Nat}
    (hoff : off < es.length) :
    (es.drop off).take (es.length - off - 1) ++ [l] = es.drop off := by
  have hes : es.dropLast ++ [l] = es :=
    List.dropLast_append_getLast? l (by rw [hgl]; rfl)
  have hdlen : es.dropLast.length = es.length - 1 := List.length_dropLast es
  have hD : es.drop off = es.dropLast.drop off ++ [l] := by
    conv_lhs => rw [← hes]
    rw [List.drop_append_eq_append_drop, hdlen]
    have hz : off - (es.length - 1) = 0 := by omega
    rw [hz]
    simp
  rw [hD, List.take_append_eq_append_take]
  have hlen2 : (es.dropLast.drop off).length = es.length - 1 - off := by
    rw [List.length_drop, hdlen]
  rw [List.take_of_length_le (by omega)]
  have hz2 : es.length - off - 1 - (es.dropLast.drop off).length = 0 := by omega
  rw [hz2]
  simp

/-- The element-level effect of the shifting phase of insert at a
position strictly before end(): the move_backward source range
[off, len-1) is valid, and after move-constructing the last element
into the top slot and shifting, assigning v into slot off yields
exactly the insertion of v at position off. -/
theorem insert_shift_set {es : List T} {l : T} (hgl : es.getLast? = some l) {off : Nat}
    (hoff : off < es.length) (v : T) :
    ∃ es2, move_backward_slots (es ++ [l]) off (es.length - 1) es.length = some es2 ∧
      es2.length = es.length + 1 ∧
      es2.set off v = es.take off ++ v :: es.drop off := by
  have hne : es ≠ [] := by
    intro hh
    rw [hh] at hgl
    simp at hgl
  have hlen1 : 1 ≤ es.length := by
    rcases es with _ | ⟨x, xs⟩
    · exact absurd rfl hne
    · simp
  by_cases hA : es.length - 1 ≤ off
  · refine ⟨es ++ [l], ?_, by simp, ?_⟩
    · unfold move_backward_slots
      rw [if_neg (by omega), if_pos (by omega)]
    · have hoffe : off = es.length - 1 := by omega
      rw [List.set_eq_take_cons_drop v (by simp; omega)]
      rw [List.take_append_eq_append_take]
      have h1 : off - es.length = 0 := by omega
      rw [h1]
      rw [List.drop_append_eq_append_drop]
      have h2 : off + 1 - es.length = 0 := by omega
      rw [h2]
      have h3 : es.drop (off + 1) = [] := List.drop_of_length_le (by omega)
      rw [h3]
      have h4 := drop_ends_with_getLast hgl (show off < es.length by omega)
      have h5 : es.length - off - 1 = 0 := by omega
      rw [h5] at h4
      simp only [List.take_zero, List.nil_append] at h4
      simp [← h4]
  · have hmb : move_backward_slots (es ++ [l]) off (es.length - 1) es.length
        = some ((es ++ [l]).take (es.length - (es.length - 1 - off))
            ++ ((es ++ [l]).drop off).take (es.length - 1 - off)
            ++ (es ++ [l]).drop es.length) := by
      unfold move_backward_slots
      rw [if_neg (by omega), if_neg (by omega)]
    refine ⟨_, hmb, ?_, ?_⟩
    · simp [List.length_append, List.length_take, List.length_drop]
      omega
    have harith : es.length - (es.length - 1 - off) = off + 1 := by omega
    rw [harith]
    have hA1 : (es ++ [l]).take (off + 1) = es.take (off + 1) := by
      rw [List.take_append_eq_append_take]
      have : off + 1 - es.length = 0 := by omega
      rw [this]
      simp
    have hA2 : (es ++ [l]).drop off = es.drop off ++ [l] := by
      rw [List.drop_append_eq_append_drop]
      have : off - es.length = 0 := by omega
      rw [this]
      simp
    have hA3 : (es ++ [l]).drop es.length = [l] := by
      rw [List.drop_append_eq_append_drop]
      simp
    rw [hA1, hA2, hA3]
    have hA4 : (es.drop off ++ [l]).take (es.length - 1 - off)
        = (es.drop off).take (es.length - 1 - off) := by
      rw [List.take_append_eq_append_take]
      have : es.length - 1 - off - (es.drop off).length = 0 := by
        rw [List.length_drop]; omega
      rw [this]
      simp
    rw [hA4, List.append_assoc]
    have hlen2 : (es.take (off + 1) ++ ((es.drop off).take (es.length - 1 - off) ++ [l])).length
        = es.length + 1 := by
      simp [List.length_append, List.length_take, List.length_drop]
      omega
    rw [List.set_eq_take_cons_drop v (by rw [hlen2]; omega)]
    rw [List.take_append_eq_append_take]
    have h6 : off - (es.take (off + 1)).length = 0 := by
      rw [List.length_take]; omega
    rw [h6]
    rw [List.take_take]
    have h7 : off ⊓ (off + 1) = off := by omega
    rw [h7]
    rw [List.drop_append_eq_append_drop]
    have h8 : (es.take (off + 1)).drop (off + 1) = [] :=
      List.drop_of_length_le (by rw [List.length_take]; omega)
    have h9 : off + 1 - (es.take (off + 1)).length = 0 := by
      rw [List.length_take]; omega
    rw [h8, h9]
    simp only [List.drop_zero, List.take_zero, List.nil_append, List.append_nil]
    have h10 := drop_ends_with_getLast hgl (show off < es.length by omega)
    have h11 : es.length - off - 1 = es.length - 1 - off := by omega
    rw [h11] at h10
    rw [h10]

/-- C3: the insert-at contract fails at its two boundary scenarios.  On
the container [1, 2, 3] (N = 8), inserting at the interior offsets 0
and 1 and at the last-element offset 2 shifts the tail and yields the
claimed sequences, and offset 4 is out of range and throws with no
change; but inserting at offset 3 = m_size - position end() - reaches
std move_backward with the inverted source range [end, end-1), which is
undefined behaviour, and insert(42, begin) on an empty container
assigns the value into a slot holding no live object, also undefined
behaviour - while the claim (and the repository's own Insert and
InsertIntoEmpty tests) says these append the value resp. yield [42]. -/
theorem C3_insert_boundary_cases_are_undefined :
    wf 8 (⟨Region.buf [1, 2, 3], 0, 3⟩ : SVec Nat) = true ∧
    sv.insert_impl 8 0 (7 : Nat) (⟨Region.buf [1, 2, 3], 0, 3⟩ : SVec Nat) orcNone
      = Res.ok 0 ⟨Region.buf [7, 1, 2, 3], 0, 4⟩ orcNone ∧
    sv.insert_impl 8 1 (9 : Nat) (⟨Region.buf [1, 2, 3], 0, 3⟩ : SVec Nat) orcNone
      = Res.ok 1 ⟨Region.buf [1, 9, 2, 3], 0, 4⟩ orcNone ∧
    sv.insert_impl 8 2 (9 : Nat) (⟨Region.buf [1, 2, 3], 0, 3⟩ : SVec Nat) orcNone
      = Res.ok 2 ⟨Region.buf [1, 2, 9, 3], 0, 4⟩ orcNone ∧
    sv.insert_impl 8 4 (9 : Nat) (⟨Region.buf [1, 2, 3], 0, 3⟩ : SVec Nat) orcNone
      = Res.thrown Err.outOfRange ⟨Region.buf [1, 2, 3], 0, 3⟩ orcNone ∧
    sv.insert_impl 8 3 (9 : Nat) (⟨Region.buf [1, 2, 3], 0, 3⟩ : SVec Nat) orcNone
      = Res.ub ∧
    wf 8 (empty Nat) = true ∧
    sv.insert_impl 8 0 (42 : Nat) (empty Nat) orcNone = Res.ub := by
  refine ⟨rfl, rfl, rfl, rfl, rfl, rfl, rfl, rfl⟩

/-- C6: the growth policy of ensure_capacity on well-formed containers.
A request at most the current capacity changes nothing (any oracle);
otherwise the new capacity is max(2 x capacity, request) while the
current capacity is at or below the large-size threshold 1024 and
max(capacity + capacity/2, request) above it.  Appending to an inline
container below N leaves it inline (no promotion); appending to a full
inline container (m_size = N) promotes it to heap in that single
operation, with capacity strictly greater than N. -/
theorem C6_growth_policy {T : Type} (N req : Nat) (v : T) (s : SVec T) (o : Orc)
    (hwf : wf N s = true) :
    (req ≤ sv.capacity N s → sv.ensure_capacity N req s o = Res.ok () s o) ∧
    (sv.capacity N s < req →
      ∃ s', sv.ensure_capacity N req s orcNone = Res.ok () s' orcNone ∧
        (sv.capacity N s ≤ 1024 → sv.capacity N s' = max (2 * sv.capacity N s) req) ∧
        (1024 < sv.capacity N s →
          sv.capacity N s' = max (sv.capacity N s + sv.capacity N s / 2) req)) ∧
    (s.m_alloc = 0 → s.m_size < N →
      ∃ s', sv.push_back N v s orcNone = Res.ok () s' orcNone ∧ s'.m_alloc = 0 ∧
        s'.m_size = s.m_size + 1) ∧
    (s.m_alloc = 0 → s.m_size = N →
      ∃ s', sv.push_back N v s orcNone = Res.ok () s' orcNone ∧
        s'.m_alloc ≠ 0 ∧ N < sv.capacity N s' ∧ s'.m_size = s.m_size + 1) := by
  refine ⟨?_, ?_, ?_, ?_⟩
  · intro hle
    unfold sv.ensure_capacity
    rw [if_pos hle]
  · intro hlt
    obtain ⟨s1, hens, hwf1, hbe1, hsz1, hcaple, hreq1, _, hfor⟩ :=
      ensure_ok_none req hwf
    have hf := hfor hlt
    refine ⟨s1, hens, ?_, ?_⟩
    · intro hsmall
      rw [if_neg (by omega)] at hf
      omega
    · intro hbig
      rw [if_pos hbig] at hf
      omega
  · intro hal hlt
    obtain ⟨es, hbe, hlen, _⟩ := wf_beginElems hwf
    have hcap : sv.capacity N s = N := by simp [sv.capacity, hal]
    obtain ⟨s1, hens, hwf1, hbe1, hsz1, _, _, hid, _⟩ :=
      ensure_ok_none (s.m_size + 1) hwf
    have hs1 : s1 = s := hid (by omega)
    rw [hs1] at hens
    obtain ⟨hpe, hwf2, hbe2⟩ := placeEnd_of_wf v hwf hbe (by omega)
    refine ⟨{ writeBack s (es ++ [v]) with m_size := s.m_size + 1 }, ?_, ?_, ?_⟩
    · unfold sv.push_back
      simp only [hens]
      simp only [constructRun, orcNone, hpe]
    · show (writeBack s (es ++ [v])).m_alloc = 0
      rw [writeBack_m_alloc]
      exact hal
    · show s.m_size + 1 = s.m_size + 1
      rfl
  · intro hal hfull
    obtain ⟨es, hbe, hlen, _⟩ := wf_beginElems hwf
    have hcap : sv.capacity N s = N := by simp [sv.capacity, hal]
    obtain ⟨s1, hens, hwf1, hbe1, hsz1, hcaple, hreq1, _, _⟩ :=
      ensure_ok_none (s.m_size + 1) hwf
    have hbes1 : beginElems s1 = some es := by rw [hbe1, hbe]
    obtain ⟨hpe, hwf2, hbe2⟩ := placeEnd_of_wf v hwf1 hbes1 (by omega)
    refine ⟨{ writeBack s1 (es ++ [v]) with m_size := s1.m_size + 1 }, ?_, ?_, ?_, ?_⟩
    · unfold sv.push_back
      simp only [hens]
      simp only [constructRun, orcNone, hpe]
    · show (writeBack s1 (es ++ [v])).m_alloc ≠ 0
      rw [writeBack_m_alloc]
      intro hq
      have : sv.capacity N s1 = N := by simp [sv.capacity, hq]
      omega
    · have hca : sv.capacity N { writeBack s1 (es ++ [v]) with m_size := s1.m_size + 1 }
          = sv.capacity N s1 := by
        simp [sv.capacity, writeBack_m_alloc]
      rw [hca]
      omega
    · show s1.m_size + 1 = s.m_size + 1
      omega

/-- C6 witness: with N = 4, a request within capacity is a no-op on
[1, 2]; a growth request 9 from capacity 4 yields capacity
max(2 x 4, 9) = 9; pushing onto [1, 2] stays inline; pushing onto the
full [1, 2, 3, 4] promotes to heap with capacity above 4. -/
theorem C6_witness :
    (sv.ensure_capacity 4 3 (⟨Region.buf [1, 2], 0, 2⟩ : SVec Nat) orcNone
      = Res.ok () ⟨Region.buf [1, 2], 0, 2⟩ orcNone) ∧
    (∃ s', sv.ensure_capacity 4 9 (⟨Region.buf [1, 2], 0, 2⟩ : SVec Nat) orcNone
        = Res.ok () s' orcNone ∧
      (sv.capacity 4 (⟨Region.buf [1, 2], 0, 2⟩ : SVec Nat) ≤ 1024 →
        sv.capacity 4 s' = max (2 * sv.capacity 4 (⟨Region.buf [1, 2], 0, 2⟩ : SVec Nat)) 9) ∧
      (1024 < sv.capacity 4 (⟨Region.buf [1, 2], 0, 2⟩ : SVec Nat) →
        sv.capacity 4 s' = max (sv.capacity 4 (⟨Region.buf [1, 2], 0, 2⟩ : SVec Nat)
          + sv.capacity 4 (⟨Region.buf [1, 2], 0, 2⟩ : SVec Nat) / 2) 9)) ∧
    (∃ s', sv.push_back 4 (7 : Nat) (⟨Region.buf [1, 2], 0, 2⟩ : SVec Nat) orcNone
        = Res.ok () s' orcNone ∧ s'.m_alloc = 0 ∧ s'.m_size = 2 + 1) ∧
    (∃ s', sv.push_back 4 (7 : Nat) (⟨Region.buf [1, 2, 3, 4], 0, 4⟩ : SVec Nat) orcNone
        = Res.ok () s' orcNone ∧ s'.m_alloc ≠ 0 ∧ 4 < sv.capacity 4 s' ∧ s'.m_size = 4 + 1) :=
  ⟨(C6_growth_policy 4 3 (7 : Nat) ⟨Region.buf [1, 2], 0, 2⟩ orcNone (by decide)).1 (by decide),
   (C6_growth_policy 4 9 (7 : Nat) ⟨Region.buf [1, 2], 0, 2⟩ orcNone (by decide)).2.1 (by decide),
   (C6_growth_policy 4 9 (7 : Nat) ⟨Region.buf [1, 2], 0, 2⟩ orcNone (by decide)).2.2.1
     (by decide) (by decide),
   (C6_growth_policy 4 9 (7 : Nat) ⟨Region.buf [1, 2, 3, 4], 0, 4⟩ orcNone (by decide)).2.2.2
     (by decide) (by decide)⟩

/-- Clearing a well-formed inline container gives the empty inline
state. -/
theorem clear_inline_of_wf {N : Nat} {s : SVec T} (h : wf N s = true) (hal : s.m_alloc = 0) :
    sv.clear s = some ⟨Region.buf [], 0, 0⟩ := by
  obtain ⟨hc, _⟩ := clear_of_wf h
  rcases wf_iff.1 h with ⟨es, hreg, _, _, _⟩ | ⟨a, es, hreg, hala, _, _, hN⟩
  · rw [hc]
    rcases s with ⟨reg, al, sz⟩
    simp only at hreg hal
    subst hreg
    subst hal
    simp [writeBack]
  · exfalso
    omega

/-- C9: move semantics.  For well-formed containers: moving from an
inline source (by constructor, or by assignment into any well-formed
destination) gives a destination holding the source's elements in order
in its own inline buffer, and the source is cleared - element count 0,
still inline.  Moving from a heap-resident source transfers the heap
region, capacity field and size to the destination unchanged, and the
source is reset to the empty inline state (no heap region owned,
m_alloc 0, hence capacity N).  In all cases the moved-from source ends
with element count 0. -/
theorem C9_move_semantics {T : Type} (N : Nat) (dest src : SVec T)
    (hsrc : wf N src = true) (hdest : wf N dest = true) :
    (src.m_alloc = 0 →
      ∀ es, beginElems src = some es →
        sv.move_ctor N src
          = some (⟨Region.buf es, 0, src.m_size⟩, ⟨Region.buf [], 0, 0⟩) ∧
        sv.move_assign N dest src
          = some (⟨Region.buf es, 0, src.m_size⟩, ⟨Region.buf [], 0, 0⟩)) ∧
    (src.m_alloc ≠ 0 →
      ∀ a es, src.region = Region.heap a es →
        sv.move_ctor N src
          = some (⟨Region.heap a es, src.m_alloc, src.m_size⟩, ⟨Region.buf [], 0, 0⟩) ∧
        sv.move_assign N dest src
          = some (⟨Region.heap a es, src.m_alloc, src.m_size⟩, ⟨Region.buf [], 0, 0⟩)) := by
  constructor
  · intro hal0 es hbes
    obtain ⟨es1, hbe1, hre1, hlen1⟩ := wf_readElems hsrc
    have hee : es1 = es := by rw [hbe1] at hbes; injection hbes
    rw [hee] at hre1 hlen1
    have hszN : src.m_size ≤ N := by
      rcases wf_iff.1 hsrc with ⟨es2, _, _, hsz2, hle2⟩ | ⟨a, es2, _, hala, _, _, _⟩
      · omega
      · omega
    have hcl := clear_inline_of_wf hsrc hal0
    constructor
    · unfold sv.move_ctor
      rw [if_pos hal0]
      simp only [hre1]
      rw [if_pos hszN]
      simp only [hcl]
    · unfold sv.move_assign
      simp only [nearly_destroy_of_wf hdest]
      rw [if_pos hal0]
      simp only [hre1]
      rw [if_pos hszN]
      simp only [hcl]
  · intro hal0 a es hreg
    constructor
    · unfold sv.move_ctor
      rw [if_neg hal0]
      simp only [hreg]
    · unfold sv.move_assign
      simp only [nearly_destroy_of_wf hdest]
      rw [if_neg hal0]
      simp only [hreg]

/-- C9 witness: moving from the inline source [1, 2] and from the
heap-resident source [1, 2, 3] of capacity 5 (both with N = 4, the
destination holding one element). -/
theorem C9_witness :
    (sv.move_ctor 4 (⟨Region.buf [1, 2], 0, 2⟩ : SVec Nat)
        = some (⟨Region.buf [1, 2], 0, 2⟩, ⟨Region.buf [], 0, 0⟩) ∧
      sv.move_assign 4 (⟨Region.buf [9], 0, 1⟩ : SVec Nat) ⟨Region.buf [1, 2], 0, 2⟩
        = some (⟨Region.buf [1, 2], 0, 2⟩, ⟨Region.buf [], 0, 0⟩)) ∧
    (sv.move_ctor 4 (⟨Region.heap 5 [1, 2, 3], 5, 3⟩ : SVec Nat)
        = some (⟨Region.heap 5 [1, 2, 3], 5, 3⟩, ⟨Region.buf [], 0, 0⟩) ∧
      sv.move_assign 4 (⟨Region.buf [9], 0, 1⟩ : SVec Nat) ⟨Region.heap 5 [1, 2, 3], 5, 3⟩
        = some (⟨Region.heap 5 [1, 2, 3], 5, 3⟩, ⟨Region.buf [], 0, 0⟩)) :=
  ⟨(C9_move_semantics 4 ⟨Region.buf [9], 0, 1⟩ ⟨Region.buf [1, 2], 0, 2⟩
      (by decide) (by decide)).1 (by decide) [1, 2] rfl,
   (C9_move_semantics 4 ⟨Region.buf [9], 0, 1⟩ ⟨Region.heap 5 [1, 2, 3], 5, 3⟩
      (by decide) (by decide)).2 (by decide) 5 [1, 2, 3] rfl⟩

/-- A well-formed container satisfies the basic count bound. -/
theorem wf_size_le_cap {N : Nat} {s : SVec T} (h : wf N s = true) :
    s.m_size ≤ sv.capacity N s := by
  obtain ⟨es, _, _, hle⟩ := wf_beginElems h
  exact hle

/-- The two possible successful outcomes of reserve: the early return
(capacity already sufficient or request within N), or relocation to a
fresh heap region of exactly the requested size. -/
theorem reserve_ok_eq {N inp : Nat} {s : SVec T} {o : Orc} {s' : SVec T} {o' : Orc}
    (h : sv.reserve N inp s o = Res.ok () s' o') :
    (s' = s ∧ (s.m_alloc > inp ∨ N ≥ inp)) ∨
    (∃ es, s' = ⟨Region.heap inp es, inp, s.m_size⟩ ∧ es.length = s.m_size ∧
      s.m_alloc ≤ inp ∧ N < inp) := by
  unfold sv.reserve at h
  split at h
  · next hcond =>
    left
    injection h with h1 h2 h3
    exact ⟨h2.symm, hcond⟩
  · next hcond =>
    rcases hu : useAlloc o with ⟨b, o1⟩
    cases b <;> simp only [hu] at h
    · simp at h
    · rcases hr : readElems s s.m_size with _ | moved <;> simp only [hr] at h
      · simp at h
      · by_cases hsz : s.m_size ≤ inp
        · rw [if_pos hsz] at h
          rcases hc : constructRun s.m_size o1 with ⟨k, bc, o2⟩
          cases bc <;> simp only [hc] at h
          · simp at h
          · rcases hn : sv.nearly_destroy s with _ | s1 <;> simp only [hn] at h
            · simp at h
            · right
              injection h with h1 h2 h3
              exact ⟨moved, h2.symm, readElems_length hr, by omega, by omega⟩
        · rw [if_neg hsz] at h
          simp at h

/-- An ensure_capacity call that throws leaves the state unchanged. -/
theorem ensure_thrown_eq {N req : Nat} {s : SVec T} {o : Orc} {e : Err} {s' : SVec T}
    {o' : Orc} (h : sv.ensure_capacity N req s o = Res.thrown e s' o') : s' = s := by
  unfold sv.ensure_capacity at h
  split at h
  · simp at h
  · exact reserve_thrown_eq h

/-- A successful ensure_capacity never lowers the capacity and keeps
the element count. -/
theorem ensure_ok_post {N req : Nat} {s s1 : SVec T} {o o1 : Orc}
    (h : sv.ensure_capacity N req s o = Res.ok () s1 o1) :
    sv.capacity N s ≤ sv.capacity N s1 ∧ s1.m_size = s.m_size := by
  unfold sv.ensure_capacity at h
  split at h
  · injection h with h1 h2 h3
    rw [← h2]
    exact ⟨le_refl _, rfl⟩
  · rcases reserve_ok_eq h with ⟨heq, hcond⟩ | ⟨es, heq, hlen, hai, hNi⟩
    · rw [heq]
      exact ⟨le_refl _, rfl⟩
    · subst heq
      refine ⟨?_, rfl⟩
      simp only [sv.capacity]
      split_ifs <;> omega

/-- On a well-formed container, a successful ensure_capacity guarantees
the requested capacity. -/
theorem ensure_ok_req {N req : Nat} {s s1 : SVec T} {o o1 : Orc} (hwf : wf N s = true)
    (h : sv.ensure_capacity N req s o = Res.ok () s1 o1) :
    req ≤ sv.capacity N s1 := by
  unfold sv.ensure_capacity at h
  split at h
  · next hcond =>
    injection h with h1 h2 h3
    rw [← h2]
    exact hcond
  · next hcond =>
    have hmc := wf_m_alloc_le_capacity hwf
    have hcg := wf_capacity_ge hwf
    rcases reserve_ok_eq h with ⟨heq, hc2⟩ | ⟨es, heq, hlen, hai, hNi⟩
    · exfalso
      omega
    · subst heq
      simp only [sv.capacity]
      split_ifs <;> omega

/-- The successful placement of an element at end() keeps m_alloc and
adds one to m_size. -/
theorem placeEnd_some {N : Nat} {s : SVec T} {v : T} {s2 : SVec T}
    (h : sv.placeEnd N s v = some s2) :
    s2.m_alloc = s.m_alloc ∧ s2.m_size = s.m_size + 1 := by
  unfold sv.placeEnd at h
  rcases hbe : beginElems s with _ | es
  · simp only [hbe] at h
    simp at h
  · rcases hrs : regionSlots N s with _ | slots
    · simp only [hbe, hrs] at h
      simp at h
    · simp only [hbe, hrs] at h
      split at h
      · injection h with h2
        rw [← h2]
        exact ⟨writeBack_m_alloc s _, rfl⟩
      · simp at h

/-- A successful clear keeps m_alloc and zeroes m_size. -/
theorem clear_some {s s1 : SVec T} (h : sv.clear s = some s1) :
    s1.m_alloc = s.m_alloc ∧ s1.m_size = 0 := by
  unfold sv.clear at h
  split at h
  · next hz =>
    injection h with h2
    rw [← h2]
    exact ⟨rfl, hz⟩
  · rcases hbe : beginElems s with _ | es <;> simp only [hbe] at h
    · simp at h
    · split at h
      · injection h with h2
        rw [← h2]
        exact ⟨writeBack_m_alloc s _, rfl⟩
      · simp at h

/-- A successful nearly_destroy zeroes both counters. -/
theorem nearly_destroy_some {s s1 : SVec T} (h : sv.nearly_destroy s = some s1) :
    s1.m_alloc = 0 ∧ s1.m_size = 0 := by
  unfold sv.nearly_destroy at h
  rcases hc : sv.clear s with _ | sc <;> simp only [hc] at h
  · simp at h
  · split at h
    · next hz =>
      injection h with h2
      rw [← h2]
      exact ⟨rfl, rfl⟩
    · rcases hr : sc.region with es | ⟨a, es⟩ <;> simp only [hr] at h
      · simp at h
      · injection h with h2
        rw [← h2]
        exact ⟨rfl, rfl⟩

/-- Move construction from a well-formed source yields a well-formed
destination and a well-formed emptied source. -/
theorem move_ctor_wf {N : Nat} {src d src' : SVec T} (hwf : wf N src = true)
    (h : sv.move_ctor N src = some (d, src')) :
    wf N d = true ∧ wf N src' = true ∧ d.m_size = src.m_size ∧ src'.m_size = 0 := by
  unfold sv.move_ctor at h
  split at h
  · next hal =>
    rcases hr : readElems src src.m_size with _ | es <;> simp only [hr] at h
    · simp at h
    · split at h
      · next hszN =>
        rcases hcl : sv.clear src with _ | c <;> simp only [hcl] at h
        · simp at h
        · injection h with h2
          injection h2 with hA hB
          have hcc : c = ⟨Region.buf [], 0, 0⟩ := by
            have := clear_inline_of_wf hwf hal
            rw [hcl] at this
            injection this
          subst hA
          subst hB
          subst hcc
          refine ⟨?_, wf_empty N, rfl, rfl⟩
          rw [wf_iff]
          exact Or.inl ⟨es, rfl, rfl, (readElems_length hr).symm, by
            have := readElems_length hr
            omega⟩
      · simp at h
  · next hal =>
    rcases hreg : src.region with es | ⟨a, es⟩ <;> simp only [hreg] at h
    · simp at h
    · injection h with h2
      injection h2 with hA hB
      subst hA
      subst hB
      rcases wf_iff.1 hwf with ⟨es1, hreg1, _⟩ | ⟨a1, es1, hreg1, h1, h2, h3, h4⟩
      · rw [hreg] at hreg1
        simp at hreg1
      · rw [hreg] at hreg1
        injection hreg1 with hy he
        subst hy
        subst he
        refine ⟨?_, wf_empty N, rfl, rfl⟩
        rw [wf_iff]
        exact Or.inr ⟨a, es, rfl, h1, h2, h3, h4⟩

/-- Move assignment from a well-formed source yields a well-formed
destination and a well-formed emptied source (the destination operand
only needs its release to succeed). -/
theorem move_assign_wf {N : Nat} {dest src d src' : SVec T} (hsrc : wf N src = true)
    (h : sv.move_assign N dest src = some (d, src')) :
    wf N d = true ∧ wf N src' = true ∧ d.m_size = src.m_size ∧ src'.m_size = 0 := by
  unfold sv.move_assign at h
  rcases hnd : sv.nearly_destroy dest with _ | d0 <;> simp only [hnd] at h
  · simp at h
  · have h' : sv.move_ctor N src = some (d, src') := by
      unfold sv.move_ctor
      exact h
    exact move_ctor_wf hsrc h'

/-- Swap of two well-formed containers yields two well-formed
containers. -/
theorem swap_wf {N : Nat} {a b a' b' : SVec T} (ha : wf N a = true) (hb : wf N b = true)
    (h : sv.swap N a b = some (a', b')) :
    wf N a' = true ∧ wf N b' = true := by
  unfold sv.swap at h
  split at h
  · rcases hra : a.region with ea | ⟨x, ea⟩ <;> rcases hrb : b.region with eb | ⟨y, eb⟩ <;>
      simp only [hra, hrb] at h
    · simp at h
    · simp at h
    · simp at h
    · injection h with h2
      injection h2 with hA hB
      subst hA
      subst hB
      constructor
      · rcases wf_iff.1 hb with ⟨es1, hreg1, _⟩ | ⟨a1, es1, hreg1, h1, h2, h3, h4⟩
        · rw [hrb] at hreg1
          simp at hreg1
        · rw [hrb] at hreg1
          injection hreg1 with hy he
          subst hy
          subst he
          rw [wf_iff]
          exact Or.inr ⟨y, eb, rfl, h1, h2, h3, h4⟩
      · rcases wf_iff.1 ha with ⟨es1, hreg1, _⟩ | ⟨a1, es1, hreg1, h1, h2, h3, h4⟩
        · rw [hra] at hreg1
          simp at hreg1
        · rw [hra] at hreg1
          injection hreg1 with hy he
          subst hy
          subst he
          rw [wf_iff]
          exact Or.inr ⟨x, ea, rfl, h1, h2, h3, h4⟩
  · split at h
    · next hcond2 =>
      rcases hr1 : readElems a a.m_size with _ | ea <;> simp only [hr1] at h
      · simp at h
      · rcases hr2 : readElems b b.m_size with _ | eb <;> simp only [hr2] at h
        · simp at h
        · split at h
          · next hNs =>
            injection h with h2
            injection h2 with hA hB
            subst hA
            subst hB
            constructor
            · rw [wf_iff]
              exact Or.inl ⟨eb, rfl, rfl, (readElems_length hr2).symm, by
                have := readElems_length hr2
                omega⟩
            · rw [wf_iff]
              exact Or.inl ⟨ea, rfl, rfl, (readElems_length hr1).symm, by
                have := readElems_length hr1
                omega⟩
          · simp at h
    · rcases hmc : sv.move_ctor N a with _ | tp <;> simp only [hmc] at h
      · simp at h
      · rcases tp with ⟨t, a1⟩
        rcases hma : sv.move_assign N a1 b with _ | p2 <;> simp only [hma] at h
        · simp at h
        · rcases p2 with ⟨a2, b1⟩
          rcases hmb : sv.move_assign N b1 t with _ | p3 <;> simp only [hmb] at h
          · simp at h
          · rcases p3 with ⟨b2, t1⟩
            injection h with h2
            injection h2 with hA hB
            subst hA
            subst hB
            obtain ⟨hwt, _, _, _⟩ := move_ctor_wf ha hmc
            obtain ⟨hwa2, _, _, _⟩ := move_assign_wf hb hma
            obtain ⟨hwb2, _, _, _⟩ := move_assign_wf hwt hmb
            exact ⟨hwa2, hwb2⟩

/-- Capacity depends only on the m_alloc field. -/
theorem capacity_congr {N : Nat} {s1 s2 : SVec T} (h : s2.m_alloc = s1.m_alloc) :
    sv.capacity N s2 = sv.capacity N s1 := by
  simp [sv.capacity, h]

/-- A successful reserve keeps the element count. -/
theorem reserve_size_eq {N inp : Nat} {s s1 : SVec T} {o o1 : Orc}
    (h : sv.reserve N inp s o = Res.ok () s1 o1) : s1.m_size = s.m_size := by
  rcases reserve_ok_eq h with ⟨heq, _⟩ | ⟨es, heq, _, _, _⟩ <;> subst heq <;> rfl

/-- On a well-formed container, a successful reserve guarantees the
requested capacity. -/
theorem reserve_ok_req {N inp : Nat} {s s1 : SVec T} {o o1 : Orc} (hwf : wf N s = true)
    (h : sv.reserve N inp s o = Res.ok () s1 o1) : inp ≤ sv.capacity N s1 := by
  rcases reserve_ok_eq h with ⟨heq, hcond⟩ | ⟨es, heq, hlen, hai, hNi⟩
  · subst heq
    rcases wf_iff.1 hwf with ⟨es1, _, hal, _, _⟩ | ⟨a1, es1, _, hal, _, hle, hN⟩
    · simp [sv.capacity, hal]
      omega
    · have ha0 : a1 ≠ 0 := by omega
      simp [sv.capacity, hal, ha0]
      omega
  · subst heq
    simp only [sv.capacity]
    split_ifs <;> omega

/-- Any non-ub outcome of reserve on a well-formed container keeps the
element count, never lowers the capacity, and keeps the count within
the capacity. -/
theorem reserve_post {N inp : Nat} {s : SVec T} {o : Orc} {s' : SVec T} {o' : Orc}
    (hwf : wf N s = true)
    (h : sv.reserve N inp s o = Res.ok () s' o' ∨
      ∃ e, sv.reserve N inp s o = Res.thrown e s' o') :
    sv.capacity N s ≤ sv.capacity N s' ∧ s'.m_size ≤ sv.capacity N s' ∧
    s'.m_size = s.m_size := by
  rcases h with hok | ⟨e, hth⟩
  · rcases reserve_ok_eq hok with ⟨heq, _⟩ | ⟨es, heq, hlen, hai, hNi⟩
    · subst heq
      exact ⟨le_refl _, wf_size_le_cap hwf, rfl⟩
    · have hszle : s.m_size ≤ inp := by
        rcases wf_iff.1 hwf with ⟨es1, _, hal, hsz, hle⟩ | ⟨a1, es1, _, hal, hsz, hle, hN⟩ <;>
          omega
      subst heq
      refine ⟨?_, ?_, rfl⟩
      · simp only [sv.capacity]
        split_ifs <;> omega
      · simp only [sv.capacity]
        split_ifs <;> omega
  · rw [reserve_thrown_eq hth]
    exact ⟨le_refl _, wf_size_le_cap hwf, rfl⟩

/-- Any non-ub outcome of ensure_capacity on a well-formed container
keeps the element count and capacity bounds. -/
theorem ensure_post_all {N req : Nat} {s : SVec T} {o : Orc} {s' : SVec T} {o' : Orc}
    (hwf : wf N s = true)
    (h : sv.ensure_capacity N req s o = Res.ok () s' o' ∨
      ∃ e, sv.ensure_capacity N req s o = Res.thrown e s' o') :
    sv.capacity N s ≤ sv.capacity N s' ∧ s'.m_size ≤ sv.capacity N s' ∧
    s'.m_size = s.m_size := by
  rcases h with hok | ⟨e, hth⟩
  · unfold sv.ensure_capacity at hok
    split at hok
    · injection hok with h1 h2 h3
      rw [← h2]
      exact ⟨le_refl _, wf_size_le_cap hwf, rfl⟩
    · exact reserve_post hwf (Or.inl hok)
  · rw [ensure_thrown_eq hth]
    exact ⟨le_refl _, wf_size_le_cap hwf, rfl⟩

/-- The number of successful constructions the oracle reports is at
most the number attempted. -/
theorem constructRun_le (k : Nat) (o : Orc) : (constructRun k o).1 ≤ k := by
  unfold constructRun
  rcases h : o.elemGas with _ | g <;> simp only [h]
  · exact le_refl k
  · split
    · show k ≤ k
      exact le_refl k
    · next hgk =>
      show g ≤ k
      omega

/-- Any non-ub outcome of push_back on a well-formed container keeps
the capacity non-decreasing and the count within the capacity. -/
theorem push_post {N : Nat} {v : T} {s : SVec T} {o : Orc} {s' : SVec T} {o' : Orc}
    (hwf : wf N s = true)
    (h : sv.push_back N v s o = Res.ok () s' o' ∨
      ∃ e, sv.push_back N v s o = Res.thrown e s' o') :
    sv.capacity N s ≤ sv.capacity N s' ∧ s'.m_size ≤ sv.capacity N s' := by
  unfold sv.push_back at h
  rcases he : sv.ensure_capacity N (s.m_size + 1) s o with ⟨a1, s1, o1⟩ | ⟨e1, s1, o1⟩ | _ <;>
    simp only [he] at h
  · obtain ⟨hmono, hsz1⟩ := ensure_ok_post he
    have hreq := ensure_ok_req hwf he
    rcases hc : constructRun 1 o1 with ⟨k, bc, o2⟩
    cases bc <;> simp only [hc] at h
    · rcases h with hok | ⟨e, hth⟩
      · simp at hok
      · injection hth with h1 h2 h3
        rw [← h2]
        exact ⟨hmono, by omega⟩
    · rcases hp : sv.placeEnd N s1 v with _ | s2 <;> simp only [hp] at h
      · rcases h with hok | ⟨e, hth⟩
        · simp at hok
        · simp at hth
      · rcases h with hok | ⟨e, hth⟩
        · injection hok with h1 h2 h3
          rw [← h2]
          obtain ⟨hal2, hsz2⟩ := placeEnd_some hp
          have hce := capacity_congr (N := N) hal2
          constructor <;> omega
        · simp at hth
  · have hse : s1 = s := ensure_thrown_eq he
    subst hse
    rcases h with hok | ⟨e, hth⟩
    · simp at hok
    · injection hth with h1 h2 h3
      rw [← h2]
      exact ⟨le_refl _, wf_size_le_cap hwf⟩
  · rcases h with hok | ⟨e, hth⟩
    · simp at hok
    · simp at hth

/-- Any non-ub outcome of insert on a well-formed container keeps the
capacity non-decreasing and the count within the capacity. -/
theorem insert_post {N : Nat} {off : Int} {v : T} {s : SVec T} {o : Orc} {r : Nat}
    {s' : SVec T} {o' : Orc} (hwf : wf N s = true)
    (h : sv.insert_impl N off v s o = Res.ok r s' o' ∨
      ∃ e, sv.insert_impl N off v s o = Res.thrown e s' o') :
    sv.capacity N s ≤ sv.capacity N s' ∧ s'.m_size ≤ sv.capacity N s' := by
  unfold sv.insert_impl at h
  split at h
  · rcases h with hok | ⟨e, hth⟩
    · simp at hok
    · injection hth with h1 h2 h3
      rw [← h2]
      exact ⟨le_refl _, wf_size_le_cap hwf⟩
  · rcases he : sv.ensure_capacity N (s.m_size + 1) s o with ⟨a1, s1, o1⟩ | ⟨e1, s1, o1⟩ | _ <;>
      simp only [he] at h
    · obtain ⟨hmono, hsz1⟩ := ensure_ok_post he
      have hreq := ensure_ok_req hwf he
      rcases hbe : beginElems s1 with _ | es <;> simp only [hbe] at h
      · rcases h with hok | ⟨e, hth⟩
        · simp at hok
        · simp at hth
      · rcases hrs : regionSlots N s1 with _ | slots <;> simp only [hrs] at h
        · rcases h with hok | ⟨e, hth⟩
          · simp at hok
          · simp at hth
        · split at h
          · rcases hws : writeSlot es off.toNat v with _ | es3 <;> simp only [hws] at h
            · rcases h with hok | ⟨e, hth⟩
              · simp at hok
              · simp at hth
            · rcases h with hok | ⟨e, hth⟩
              · injection hok with h1 h2 h3
                rw [← h2]
                refine ⟨le_trans hmono
                  (le_of_eq (capacity_congr (writeBack_m_alloc s1 es3)).symm), ?_⟩
                exact le_trans (show s1.m_size + 1 ≤ sv.capacity N s1 by omega)
                  (le_of_eq (capacity_congr (writeBack_m_alloc s1 es3)).symm)
              · simp at hth
          · rcases hgl : es.getLast? with _ | l <;> simp only [hgl] at h
            · rcases h with hok | ⟨e, hth⟩
              · simp at hok
              · simp at hth
            · split at h
              · rcases hmb : move_backward_slots (es ++ [l]) off.toNat (s1.m_size - 1)
                    s1.m_size with _ | es2 <;> simp only [hmb] at h
                · rcases h with hok | ⟨e, hth⟩
                  · simp at hok
                  · simp at hth
                · rcases hws : writeSlot es2 off.toNat v with _ | es3 <;>
                    simp only [hws] at h
                  · rcases h with hok | ⟨e, hth⟩
                    · simp at hok
                    · simp at hth
                  · rcases h with hok | ⟨e, hth⟩
                    · injection hok with h1 h2 h3
                      rw [← h2]
                      refine ⟨le_trans hmono
                        (le_of_eq (capacity_congr (writeBack_m_alloc s1 es3)).symm), ?_⟩
                      exact le_trans (show s1.m_size + 1 ≤ sv.capacity N s1 by omega)
                        (le_of_eq (capacity_congr (writeBack_m_alloc s1 es3)).symm)
                    · simp at hth
              · rcases h with hok | ⟨e, hth⟩
                · simp at hok
                · simp at hth
    · have hse : s1 = s := ensure_thrown_eq he
      subst hse
      rcases h with hok | ⟨e, hth⟩
      · simp at hok
      · injection hth with h1 h2 h3
        rw [← h2]
        exact ⟨le_refl _, wf_size_le_cap hwf⟩
    · rcases h with hok | ⟨e, hth⟩
      · simp at hok
      · simp at hth

/-- Any non-ub outcome of erase on a well-formed container keeps the
capacity unchanged and the count within the capacity. -/
theorem erase_post {f l : Int} {s : SVec T} {o : Orc} {r : Nat} {s' : SVec T}
    {o' : Orc} (N : Nat) (hwf : wf N s = true)
    (h : sv.erase f l s o = Res.ok r s' o' ∨ ∃ e, sv.erase f l s o = Res.thrown e s' o') :
    sv.capacity N s ≤ sv.capacity N s' ∧ s'.m_size ≤ sv.capacity N s' := by
  unfold sv.erase at h
  split at h
  · rcases h with hok | ⟨e, hth⟩
    · simp at hok
    · injection hth with h1 h2 h3
      rw [← h2]
      exact ⟨le_refl _, wf_size_le_cap hwf⟩
  · split at h
    · rcases h with hok | ⟨e, hth⟩
      · injection hok with h1 h2 h3
        rw [← h2]
        exact ⟨le_refl _, wf_size_le_cap hwf⟩
      · simp at hth
    · rcases hbe : beginElems s with _ | es <;> simp only [hbe] at h
      · rcases h with hok | ⟨e, hth⟩
        · simp at hok
        · simp at hth
      · split at h
        · rcases h with hok | ⟨e, hth⟩
          · injection hok with h1 h2 h3
            rw [← h2]
            have hsle := wf_size_le_cap hwf
            refine ⟨le_of_eq (capacity_congr (writeBack_m_alloc s
              (es.take f.toNat ++ es.drop l.toNat))).symm, ?_⟩
            exact le_trans (show s.m_size - (l.toNat - f.toNat) ≤ sv.capacity N s by omega)
              (le_of_eq (capacity_congr (writeBack_m_alloc s
                (es.take f.toNat ++ es.drop l.toNat))).symm)
          · simp at hth
        · rcases h with hok | ⟨e, hth⟩
          · simp at hok
          · simp at hth

/-- Any non-ub outcome of resize on a well-formed container keeps the
capacity non-decreasing and the count within the capacity. -/
theorem resize_post {N sz : Nat} {v : T} {s : SVec T} {o : Orc} {s' : SVec T} {o' : Orc}
    (hwf : wf N s = true)
    (h : sv.resize N sz v s o = Res.ok () s' o' ∨
      ∃ e, sv.resize N sz v s o = Res.thrown e s' o') :
    sv.capacity N s ≤ sv.capacity N s' ∧ s'.m_size ≤ sv.capacity N s' := by
  unfold sv.resize at h
  split at h
  · rcases h with hok | ⟨e, hth⟩
    · injection hok with h1 h2 h3
      rw [← h2]
      exact ⟨le_refl _, wf_size_le_cap hwf⟩
    · simp at hth
  · split at h
    · next hlt =>
      rcases hbe : beginElems s with _ | es <;> simp only [hbe] at h
      · rcases h with hok | ⟨e, hth⟩
        · simp at hok
        · simp at hth
      · split at h
        · rcases h with hok | ⟨e, hth⟩
          · injection hok with h1 h2 h3
            rw [← h2]
            have hsle := wf_size_le_cap hwf
            refine ⟨le_of_eq (capacity_congr (writeBack_m_alloc s (es.take sz))).symm, ?_⟩
            exact le_trans (show sz ≤ sv.capacity N s by omega)
              (le_of_eq (capacity_congr (writeBack_m_alloc s (es.take sz))).symm)
          · simp at hth
        · rcases h with hok | ⟨e, hth⟩
          · simp at hok
          · simp at hth
    · next hnlt =>
      rcases hre : sv.reserve N sz s o with ⟨a1, s1, o1⟩ | ⟨e1, s1, o1⟩ | _ <;>
        simp only [hre] at h
      · obtain ⟨hmono, hbound, hszeq⟩ := reserve_post hwf (Or.inl hre)
        have hreq := reserve_ok_req hwf hre
        rcases hbe : beginElems s1 with _ | es <;> simp only [hbe] at h
        · rcases h with hok | ⟨e, hth⟩
          · simp at hok
          · simp at hth
        · rcases hrs : regionSlots N s1 with _ | slots <;> simp only [hrs] at h
          · rcases h with hok | ⟨e, hth⟩
            · simp at hok
            · simp at hth
          · split at h
            · rcases hc : constructRun (sz - s1.m_size) o1 with ⟨k, bc, o2⟩
              have hkle : k ≤ sz - s1.m_size := by
                have hh := constructRun_le (sz - s1.m_size) o1
                rw [hc] at hh
                exact hh
              cases bc <;> simp only [hc] at h
              · rcases h with hok | ⟨e, hth⟩
                · simp at hok
                · injection hth with h1 h2 h3
                  rw [← h2]
                  refine ⟨le_trans hmono (le_of_eq (capacity_congr
                    (writeBack_m_alloc s1 (es ++ List.replicate k v))).symm), ?_⟩
                  exact le_trans (show s1.m_size + k ≤ sv.capacity N s1 by omega)
                    (le_of_eq (capacity_congr
                      (writeBack_m_alloc s1 (es ++ List.replicate k v))).symm)
              · rcases h with hok | ⟨e, hth⟩
                · injection hok with h1 h2 h3
                  rw [← h2]
                  refine ⟨le_trans hmono (le_of_eq (capacity_congr
                    (writeBack_m_alloc s1 (es ++ List.replicate k v))).symm), ?_⟩
                  exact le_trans (show s1.m_size + k ≤ sv.capacity N s1 by omega)
                    (le_of_eq (capacity_congr
                      (writeBack_m_alloc s1 (es ++ List.replicate k v))).symm)
                · simp at hth
            · rcases h with hok | ⟨e, hth⟩
              · simp at hok
              · simp at hth
      · have hse : s1 = s := reserve_thrown_eq hre
        subst hse
        rcases h with hok | ⟨e, hth⟩
        · simp at hok
        · injection hth with h1 h2 h3
          rw [← h2]
          exact ⟨le_refl _, wf_size_le_cap hwf⟩
      · rcases h with hok | ⟨e, hth⟩
        · simp at hok
        · simp at hth

/-- pop_back keeps the capacity and the count within the capacity. -/
theorem pop_post {s s' : SVec T} (N : Nat) (hwf : wf N s = true)
    (h : sv.pop_back s = some s') :
    sv.capacity N s ≤ sv.capacity N s' ∧ s'.m_size ≤ sv.capacity N s' := by
  unfold sv.pop_back at h
  split at h
  · injection h with h2
    rw [← h2]
    exact ⟨le_refl _, wf_size_le_cap hwf⟩
  · rcases hbe : beginElems s with _ | es <;> simp only [hbe] at h
    · simp at h
    · split at h
      · injection h with h2
        rw [← h2]
        have hsle := wf_size_le_cap hwf
        refine ⟨le_of_eq (capacity_congr (writeBack_m_alloc s es.dropLast)).symm, ?_⟩
        exact le_trans (show s.m_size - 1 ≤ sv.capacity N s by omega)
          (le_of_eq (capacity_congr (writeBack_m_alloc s es.dropLast)).symm)
      · simp at h

/-- clear keeps the capacity and zeroes the count. -/
theorem clear_post {s s' : SVec T} (N : Nat) (_hwf : wf N s = true)
    (h : sv.clear s = some s') :
    sv.capacity N s ≤ sv.capacity N s' ∧ s'.m_size ≤ sv.capacity N s' := by
  obtain ⟨ha, hz⟩ := clear_some h
  have hce := capacity_congr (N := N) ha
  constructor <;> omega

/-- Any non-ub outcome of copy assignment from a well-formed source
keeps the destination's count within its capacity (its capacity can
decrease, see the counterexample). -/
theorem copy_assign_post {N : Nat} {dest src : SVec T} {o : Orc} {s' : SVec T} {o' : Orc}
    (hsrc : wf N src = true)
    (h : sv.copy_assign N dest src o = Res.ok () s' o' ∨
      ∃ e, sv.copy_assign N dest src o = Res.thrown e s' o') :
    s'.m_size ≤ sv.capacity N s' := by
  unfold sv.copy_assign at h
  rcases hnd : sv.nearly_destroy dest with _ | d0 <;> simp only [hnd] at h
  · rcases h with hok | ⟨e, hth⟩
    · simp at hok
    · simp at hth
  · obtain ⟨hd0a, hd0s⟩ := nearly_destroy_some hnd
    rcases hre : sv.reserve N src.m_size d0 o with ⟨a1, d1, o1⟩ | ⟨e1, s1, o1⟩ | _ <;>
      simp only [hre] at h
    · have hd1s : d1.m_size = d0.m_size := reserve_size_eq hre
      rcases hrd : readElems src src.m_size with _ | srcEs <;> simp only [hrd] at h
      · rcases h with hok | ⟨e, hth⟩
        · simp at hok
        · simp at hth
      · rcases hrs : regionSlots N d1 with _ | slots <;> simp only [hrs] at h
        · rcases h with hok | ⟨e, hth⟩
          · simp at hok
          · simp at hth
        · split at h
          · rcases hc : constructRun src.m_size o1 with ⟨k, bc, o2⟩
            cases bc <;> simp only [hc] at h
            · rcases h with hok | ⟨e, hth⟩
              · simp at hok
              · injection hth with h1 h2 h3
                rw [← h2]
                omega
            · rcases h with hok | ⟨e, hth⟩
              · injection hok with h1 h2 h3
                rw [← h2]
                rcases wf_iff.1 hsrc with ⟨es1, _, hal, hsz, hle⟩ |
                    ⟨a2, es1, _, hal, hsz, hle, hN⟩
                · simp [sv.capacity, hal]
                  omega
                · have ha0 : a2 ≠ 0 := by omega
                  simp [sv.capacity, hal, ha0]
                  omega
              · simp at hth
          · rcases h with hok | ⟨e, hth⟩
            · simp at hok
            · simp at hth
    · rcases hnd2 : sv.nearly_destroy s1 with _ | d2 <;> simp only [hnd2] at h
      · rcases h with hok | ⟨e, hth⟩
        · simp at hok
        · simp at hth
      · rcases h with hok | ⟨e, hth⟩
        · simp at hok
        · injection hth with h1 h2 h3
          rw [← h2]
          obtain ⟨_, hd2s⟩ := nearly_destroy_some hnd2
          omega
    · rcases h with hok | ⟨e, hth⟩
      · simp at hok
      · simp at hth

/-- C7 counterexample: capacity is not monotone across the claim's
operation list.  With N = 2, reserving 5 gives a heap-resident,
well-formed container of capacity 5; copy-assigning an empty inline
container into it (an operation in the claim's list, on a live
container, no destruction involved) releases its storage first and
leaves it inline with capacity 2 < 5. -/
theorem C7_counterexample_copy_assign_lowers_capacity :
    sv.run 2 [COp.reserveOp 5] (empty Nat) orcNone
      = Res.ok () ⟨Region.heap 5 [], 5, 0⟩ orcNone ∧
    wf 2 (⟨Region.heap 5 [], 5, 0⟩ : SVec Nat) = true ∧
    sv.copy_assign 2 (⟨Region.heap 5 [], 5, 0⟩ : SVec Nat) (empty Nat) orcNone
      = Res.ok () (empty Nat) orcNone ∧
    sv.capacity 2 (⟨Region.heap 5 [], 5, 0⟩ : SVec Nat) = 5 ∧
    sv.capacity 2 (empty Nat) = 2 := by
  refine ⟨rfl, rfl, rfl, rfl, rfl⟩

/-- C7 amended: on well-formed containers, element_count ≤ capacity is
preserved by every listed operation (through any outcome, including an
escaped exception), and capacity never decreases across the in-place
element operations - push_back, emplace_back, pop_back, insert, erase,
resize, clear and reserve; copy/move assignment and swap also preserve
the count bound but replace the destination's storage and so may lower
its capacity, as the counterexample shows. -/
theorem C7_amended_count_bound_and_capacity_monotone {T : Type} (N : Nat) (s src : SVec T)
    (hwf : wf N s = true) (hsrc : wf N src = true) :
    (∀ inp o s' o',
      (sv.reserve N inp s o = Res.ok () s' o' ∨
        ∃ e, sv.reserve N inp s o = Res.thrown e s' o') →
      sv.capacity N s ≤ sv.capacity N s' ∧ s'.m_size ≤ sv.capacity N s') ∧
    (∀ v o s' o',
      (sv.push_back N v s o = Res.ok () s' o' ∨
        ∃ e, sv.push_back N v s o = Res.thrown e s' o') →
      sv.capacity N s ≤ sv.capacity N s' ∧ s'.m_size ≤ sv.capacity N s') ∧
    (∀ v o s' o',
      (sv.emplace_back N v s o = Res.ok () s' o' ∨
        ∃ e, sv.emplace_back N v s o = Res.thrown e s' o') →
      sv.capacity N s ≤ sv.capacity N s' ∧ s'.m_size ≤ sv.capacity N s') ∧
    (∀ s', sv.pop_back s = some s' →
      sv.capacity N s ≤ sv.capacity N s' ∧ s'.m_size ≤ sv.capacity N s') ∧
    (∀ off v o r s' o',
      (sv.insert_impl N off v s o = Res.ok r s' o' ∨
        ∃ e, sv.insert_impl N off v s o = Res.thrown e s' o') →
      sv.capacity N s ≤ sv.capacity N s' ∧ s'.m_size ≤ sv.capacity N s') ∧
    (∀ f l o r s' o',
      (sv.erase f l s o = Res.ok r s' o' ∨ ∃ e, sv.erase f l s o = Res.thrown e s' o') →
      sv.capacity N s ≤ sv.capacity N s' ∧ s'.m_size ≤ sv.capacity N s') ∧
    (∀ sz v o s' o',
      (sv.resize N sz v s o = Res.ok () s' o' ∨
        ∃ e, sv.resize N sz v s o = Res.thrown e s' o') →
      sv.capacity N s ≤ sv.capacity N s' ∧ s'.m_size ≤ sv.capacity N s') ∧
    (∀ s', sv.clear s = some s' →
      sv.capacity N s ≤ sv.capacity N s' ∧ s'.m_size ≤ sv.capacity N s') ∧
    (∀ o s' o',
      (sv.copy_assign N s src o = Res.ok () s' o' ∨
        ∃ e, sv.copy_assign N s src o = Res.thrown e s' o') →
      s'.m_size ≤ sv.capacity N s') ∧
    (∀ d s2, sv.move_assign N s src = some (d, s2) →
      d.m_size ≤ sv.capacity N d ∧ s2.m_size ≤ sv.capacity N s2) ∧
    (∀ a' b', sv.swap N s src = some (a', b') →
      a'.m_size ≤ sv.capacity N a' ∧ b'.m_size ≤ sv.capacity N b') := by
  refine ⟨?_, ?_, ?_, ?_, ?_, ?_, ?_, ?_, ?_, ?_, ?_⟩
  · intro inp o s' o' h
    obtain ⟨h1, h2, _⟩ := reserve_post hwf h
    exact ⟨h1, h2⟩
  · intro v o s' o' h
    exact push_post hwf h
  · intro v o s' o' h
    exact push_post hwf h
  · intro s' h
    exact pop_post N hwf h
  · intro off v o r s' o' h
    exact insert_post hwf h
  · intro f l o r s' o' h
    exact erase_post N hwf h
  · intro sz v o s' o' h
    exact resize_post hwf h
  · intro s' h
    exact clear_post N hwf h
  · intro o s' o' h
    exact copy_assign_post hsrc h
  · intro d s2 h
    obtain ⟨hd, hs2, _, _⟩ := move_assign_wf hsrc h
    exact ⟨wf_size_le_cap hd, wf_size_le_cap hs2⟩
  · intro a' b' h
    obtain ⟨ha', hb'⟩ := swap_wf hwf hsrc h
    exact ⟨wf_size_le_cap ha', wf_size_le_cap hb'⟩

/-- C7 amended witness: the bundle applied to the concrete well-formed
containers [1, 2] (inline) and [7] (inline) with N = 2, checking the
push_back conjunct at a concrete call that promotes to the heap. -/
theorem C7_amended_witness :
    sv.capacity 2 (⟨Region.buf [1, 2], 0, 2⟩ : SVec Nat) ≤ sv.capacity 2 ⟨Region.heap 4 [1, 2, 9], 4, 3⟩ ∧
    (⟨Region.heap 4 [1, 2, 9], 4, 3⟩ : SVec Nat).m_size ≤ sv.capacity 2 ⟨Region.heap 4 [1, 2, 9], 4, 3⟩ :=
  (C7_amended_count_bound_and_capacity_monotone 2 ⟨Region.buf [1, 2], 0, 2⟩
      (⟨Region.buf [7], 0, 1⟩ : SVec Nat) (by decide) (by decide)).2.1
    9 orcNone ⟨Region.heap 4 [1, 2, 9], 4, 3⟩ orcNone (Or.inl (by decide))

/-- C10: the two revisions mpc small_vector (small_vector.hpp) and mpc
smallVector (smallVector.hpp), at the same element type and the same
inline capacity N, are observationally equal on their common public
interface: every sequence of the shared mutating operations (push_back,
emplace_back, reserve, resize, clear, copy/move assignment, swap) run
from the same state under the same failure oracle produces identical
outcomes - the same final state (hence sizes, capacities and element
values) or the same escaped exception with the same carried state - and
the observation and construction operations (capacity, at, operator
bracket / data / begin-end reads via get_elem, copy/move construction,
the count, initializer-list and default constructors) agree on every
input. -/
theorem C10_two_revisions_observationally_equal :
    (∀ (T : Type) (N : Nat) (ops : List (COp T)) (s : SVec T) (o : Orc),
      svOld.run N ops s o = sv.run N ops s o) ∧
    (∀ (T : Type) (N : Nat) (s : SVec T), svOld.capacity N s = sv.capacity (T := T) N s) ∧
    (∀ (T : Type) (i : Nat) (s : SVec T) (o : Orc), svOld.at_elem i s o = sv.at_elem i s o) ∧
    (∀ (T : Type) (i : Nat) (s : SVec T), svOld.get_elem i s = sv.get_elem i s) ∧
    (∀ (T : Type) (N : Nat) (other : SVec T) (o : Orc),
      svOld.copy_ctor N other o = sv.copy_ctor N other o) ∧
    (∀ (T : Type) (N : Nat) (other : SVec T), svOld.move_ctor N other = sv.move_ctor N other) ∧
    (∀ (T : Type) (N : Nat) (l : List T) (o : Orc), svOld.init_list N l o = sv.init_list N l o) ∧
    (∀ (T : Type) (N : Nat) (dflt : T) (sz : Nat) (o : Orc),
      svOld.ctor_size N dflt sz o = sv.ctor_size N dflt sz o) ∧
    (∀ (T : Type) (N : Nat) (a b : SVec T), svOld.swap N a b = sv.swap N a b) := by
  refine ⟨?_, fun _ _ _ => rfl, fun _ _ _ _ => rfl, fun _ _ _ => rfl, fun _ _ _ _ => rfl,
    fun _ _ _ => rfl, fun _ _ _ _ => rfl, fun _ _ _ _ _ => rfl, fun _ _ _ _ => rfl⟩
  intro T N ops
  induction ops with
  | nil =>
    intro s o
    rfl
  | cons op rest ih =>
    intro s o
    show (match sv.runOp N op s o with
      | Res.ok _ s1 o1 => svOld.run N rest s1 o1
      | r => r) = _
    unfold sv.run
    cases sv.runOp N op s o <;> simp [ih]

end SmallVec
